import Mathlib

/-!
# minuano: coordination layer

A shallow embedding of the Go sources

* `internal/db/db.go`      (`RunMigrations`)
* `internal/agent/agent.go` (`Spawn`, `Kill`, `KillAll`)
* `cmd/minuano/cmd_attach.go` (`attachCmd.RunE`)

Every external effect (a statement sent to the Postgres pool, a tmux command) is a
step on an explicit state; every error branch of the Go code is a branch of the
embedding.  Failures of the outside world are supplied by an explicit fault
description, so that each function is an executable, total Lean function.
-/

namespace Minuano

/-! ## Go strings

Go compares strings bytewise.  File names of an `embed.FS` are valid UTF-8, and on
valid UTF-8 the bytewise order is the order of the code-point sequences, which is
the order used here. -/

/-- Lexicographic `≤` on sequences of code points. -/
def lexLe : List Nat → List Nat → Bool
  | [], _ => true
  | _ :: _, [] => false
  | a :: as, b :: bs => if a < b then true else if b < a then false else lexLe as bs

/-- Code points of a string. -/
def codes (s : String) : List Nat := s.toList.map Char.toNat

/-- Go's `a <= b` on strings. -/
def strLE (a b : String) : Prop := lexLe (codes a) (codes b) = true

instance strLE_decidable : DecidableRel strLE :=
  fun a b => inferInstanceAs (Decidable (lexLe (codes a) (codes b) = true))

/-- Go's `strings.HasSuffix`. -/
def HasSuffix (s suffix : String) : Bool := suffix.toList.isSuffixOf s.toList

/-- Go's `strings.HasPrefix`. -/
def HasPrefix (s pre : String) : Bool := pre.toList.isPrefixOf s.toList

/-- Go's `sort.Strings`: the ascending rearrangement of the slice (equal strings are
indistinguishable, so the result does not depend on the sorting algorithm). -/
def sortStrings (l : List String) : List String := l.insertionSort strLE

/-! ## internal/db/db.go -/

/-- An entry of `migrationsFS.ReadDir("migrations")`. -/
structure DirEntry where
  Name : String
  IsDir : Bool
deriving DecidableEq, Repr

/-- The embedded file system `migrationsFS`: the directory listing (`none` when
`ReadDir` fails) and the content of `migrations/<name>` (`none` when `ReadFile` fails). -/
structure EmbedFS where
  ReadDir : Option (List DirEntry)
  ReadFile : String → Option String

/-- The database behind the pool, as far as `RunMigrations` touches it: the rows of
`schema_migrations` (`none` while the table does not exist) and the bodies of the
migration scripts committed so far, oldest first. -/
structure PgDB where
  schema_migrations : Option (List String)
  committed : List String
deriving DecidableEq, Repr

/-- The filenames recorded in the tracking table. -/
def PgDB.recorded (db : PgDB) : List String := db.schema_migrations.getD []

/-- Which calls on the pool fail.  Per-script calls are keyed by the filename. -/
structure Faults where
  createTable : Bool
  query : Bool
  scan : String → Bool
  rowsErr : Bool
  begin : String → Bool
  exec : String → Bool
  record : String → Bool
  commit : String → Bool

/-- No call fails. -/
def Faults.none : Faults :=
  ⟨false, false, fun _ => false, false, fun _ => false, fun _ => false, fun _ => false,
    fun _ => false⟩

/-- Statements sent to the pool, as attempted. -/
inductive Stmt where
  | createTable
  | selectFilenames
  | begin
  | execScript (name sql : String)
  | insertFilename (name : String)
  | commit
  | rollback
deriving DecidableEq, Repr

/-- The errors `RunMigrations` returns, one per `fmt.Errorf`. -/
inductive MigErr where
  | creatingTable
  | readingDir
  | queryingApplied
  | scanningRow
  | iteratingRows
  | readingMigration (name : String)
  | beginningTx (name : String)
  | applyingMigration (name : String)
  | recordingMigration (name : String)
  | committingMigration (name : String)
deriving DecidableEq, Repr

/-- What a run of `RunMigrations` yields: the two return values, the database
afterwards and the statements it sent. -/
structure MigResult where
  newly : List String
  err : Option MigErr
  db : PgDB
  trace : List Stmt
deriving DecidableEq, Repr

/-- Lines 52-57: the names of the entries that are not directories and end in `.sql`. -/
def sqlFilenames (entries : List DirEntry) : List String :=
  (entries.filter (fun e => !e.IsDir && HasSuffix e.Name ".sql")).map (·.Name)

/-- Lines 67-74: the `rows.Next()` loop filling the `applied` map. -/
def scanRows (f : Faults) : List String → Option (List String)
  | [] => some []
  | name :: rest =>
    if f.scan name then none
    else (scanRows f rest).map (name :: ·)

/-- The database after the transaction of script `name` with body `sql` committed.  The
scripts are taken to leave the tracking table alone: the only row a transaction adds to
it is the one inserted by `RunMigrations`. -/
def PgDB.commitMigration (db : PgDB) (name sql : String) : PgDB :=
  { schema_migrations := some (db.recorded ++ [name]), committed := db.committed ++ [sql] }

/-- Lines 81-111: the loop over the sorted filenames.  `INSERT` fails on a filename
that is already a row (`filename` is the primary key). -/
def applyPending (fs : EmbedFS) (f : Faults) (applied : List String) :
    List String → List String → PgDB → List Stmt → MigResult
  | [], newly, db, tr => ⟨newly, none, db, tr⟩
  | name :: rest, newly, db, tr =>
    if applied.contains name then applyPending fs f applied rest newly db tr
    else
      match fs.ReadFile name with
      | none => ⟨newly, some (.readingMigration name), db, tr⟩
      | some sql =>
        if f.begin name then
          ⟨newly, some (.beginningTx name), db, tr ++ [.begin]⟩
        else if f.exec name then
          ⟨newly, some (.applyingMigration name), db,
            tr ++ [.begin, .execScript name sql, .rollback]⟩
        else if f.record name || db.recorded.contains name then
          ⟨newly, some (.recordingMigration name), db,
            tr ++ [.begin, .execScript name sql, .insertFilename name, .rollback]⟩
        else if f.commit name then
          ⟨newly, some (.committingMigration name), db,
            tr ++ [.begin, .execScript name sql, .insertFilename name, .commit]⟩
        else
          applyPending fs f applied rest (newly ++ [name]) (db.commitMigration name sql)
            (tr ++ [.begin, .execScript name sql, .insertFilename name, .commit])

/-- `RunMigrations` of `internal/db/db.go`. -/
def RunMigrations (fs : EmbedFS) (f : Faults) (db : PgDB) : MigResult :=
  if f.createTable then ⟨[], some .creatingTable, db, [.createTable]⟩
  else
    let db1 : PgDB := { db with schema_migrations := some db.recorded }
    match fs.ReadDir with
    | none => ⟨[], some .readingDir, db1, [.createTable]⟩
    | some entries =>
      let filenames := sortStrings (sqlFilenames entries)
      if f.query then ⟨[], some .queryingApplied, db1, [.createTable, .selectFilenames]⟩
      else
        match scanRows f db1.recorded with
        | none => ⟨[], some .scanningRow, db1, [.createTable, .selectFilenames]⟩
        | some applied =>
          if f.rowsErr then
            ⟨[], some .iteratingRows, db1, [.createTable, .selectFilenames]⟩
          else
            applyPending fs f applied filenames [] db1 [.createTable, .selectFilenames]

/-- The scripts whose execution was attempted, in order. -/
def executedScripts : List Stmt → List String
  | [] => []
  | .execScript name _ :: rest => name :: executedScripts rest
  | _ :: rest => executedScripts rest

/-- Filenames of the sorted list that the loop does not skip. -/
def pendingOf (applied : List String) (l : List String) : List String :=
  l.filter (fun n => !applied.contains n)

/-- The statements of the transactions of scripts that all commit. -/
def txTrace (fs : EmbedFS) : List String → List Stmt
  | [] => []
  | n :: rest =>
    [.begin, .execScript n ((fs.ReadFile n).getD ""), .insertFilename n, .commit]
      ++ txTrace fs rest

/-- The database after the transactions of the given scripts committed, in order. -/
def commitAll (fs : EmbedFS) (db : PgDB) : List String → PgDB
  | [] => db
  | n :: rest => commitAll fs (db.commitMigration n ((fs.ReadFile n).getD "")) rest

/-- The reads that precede the loop succeed: table creation, the query of the applied
filenames, the scan of every row and the final `rows.Err()`. -/
def Faults.readsOK (f : Faults) (db : PgDB) : Bool :=
  !f.createTable && !f.query && (scanRows f db.recorded).isSome && !f.rowsErr

/-- Nothing goes wrong in the iteration of script `name`: its file is read, and its
transaction begins, executes, records and commits. -/
def stepOK (fs : EmbedFS) (f : Faults) (name : String) : Bool :=
  (fs.ReadFile name).isSome && !f.begin name && !f.exec name && !f.record name
    && !f.commit name

/-- The error of a script whose execution, recording or commit fails. -/
def stepErr (f : Faults) (name : String) : MigErr :=
  if f.exec name then .applyingMigration name
  else if f.record name then .recordingMigration name
  else .committingMigration name

/-! ## The store and the process manager

The query functions of `internal/db` and the package `internal/tmux` are modelled from
the specification.  Every one of their operations is an external call: it is appended to `World.calls` when attempted, and it fails when the world's
fault pattern says so for that position in the sequence of calls. -/

/-- A row of the agents table (`db.Agent`). -/
structure AgentRow where
  ID : String
  TmuxSession : String
  TmuxWindow : String
  TaskID : Option String
  Status : String
  StartedAt : Nat
  LastSeen : Option Nat
deriving DecidableEq, Repr

/-- A row of the tasks table. -/
structure TaskRow where
  ID : String
  Status : String
deriving DecidableEq, Repr

/-- The external calls made by the coordination layer. -/
inductive Call where
  | connectDB
  | RegisterAgent (id session window : String)
  | DeleteAgent (id : String)
  | ListAgents
  | GetAgent (id : String)
  | ResolvePartialID (partialID : String)
  | GetAgentByTaskID (taskID : String)
  | NewWindow (session name : String) (env : List (String × String))
  | SendKeys (session window keys : String)
  | KillWindow (session window : String)
  | AttachOrSwitch (session window : String)
deriving DecidableEq, Repr

/-- Errors: failures of external calls, and one constructor per `fmt.Errorf` of
`agent.go` and `cmd_attach.go` (a `%w` argument is the wrapped error). -/
inductive Err where
  | external (c : Call)
  | duplicateAgent (id : String)
  | taskNotFound (partialID : String)
  | ambiguousID (partialID : String) (candidates : List String)
  | registeringAgent (e : Err)
  | creatingTmuxWindow (e : Err)
  | sendingBootstrapCommand (e : Err)
  | deletingAgentFromDB (e : Err)
  | listingAgents (e : Err)
  | noAgentOrTaskFound (id : String)
  | noAgentWorkingOnTask (taskID : String)
deriving DecidableEq, Repr

deriving instance DecidableEq for Except

/-- Lines written to standard output. -/
inductive Output where
  | warningFailedToKill (id : String) (e : Err)
deriving DecidableEq, Repr

/-- The store, the process manager, the clock and standard output. `faults k` tells
whether the external call number `k` (counting from 0 over `calls`) fails. -/
structure World where
  agents : List AgentRow
  tasks : List TaskRow
  windows : List (String × String)
  now : Nat
  faults : Nat → Bool
  calls : List Call
  stdout : List Output

/-- Whether the `k`-th external call made from this state on fails. -/
def World.failsAt (w : World) (k : Nat) : Bool := w.faults (w.calls.length + k)

/-- The ids of the registered agents. -/
def World.agentIDs (w : World) : List String := w.agents.map (·.ID)

/-- The world after attempting the call `c`. -/
def World.attempt (w : World) (c : Call) : World := { w with calls := w.calls ++ [c] }

/-- The world after attempting the calls `cs` in order. -/
def World.attempts (w : World) (cs : List Call) : World := { w with calls := w.calls ++ cs }

/-- The world with the agents table replaced. -/
def World.setAgents (w : World) (agents : List AgentRow) : World := { w with agents := agents }

/-- The world with the windows of the process manager replaced. -/
def World.setWindows (w : World) (windows : List (String × String)) : World :=
  { w with windows := windows }

/-- The world with the tasks table replaced. -/
def World.setTasks (w : World) (tasks : List TaskRow) : World := { w with tasks := tasks }

/-- The world after printing a line. -/
def World.print (w : World) (o : Output) : World := { w with stdout := w.stdout ++ [o] }

/-- Modelled from the spec: `connectDB` of `cmd/minuano` (absent), which opens the pool;
it changes nothing in the store. -/
def connectDB (w : World) : Option Err × World :=
  if w.failsAt 0 then (some (.external .connectDB), w.attempt .connectDB)
  else (none, w.attempt .connectDB)

/-- Modelled from the spec: `db.RegisterAgent` (absent), "register the agent record in
the store (status = idle, started_at = now); if this fails (e.g. duplicate id), abort". -/
def RegisterAgent (w : World) (id session window : String) : Option Err × World :=
  let c := Call.RegisterAgent id session window
  if w.failsAt 0 then (some (.external c), w.attempt c)
  else if w.agentIDs.contains id then (some (.duplicateAgent id), w.attempt c)
  else
    (none, (w.attempt c).setAgents
      (w.agents ++ [⟨id, session, window, none, "idle", w.now, none⟩]))

/-- Modelled from the spec: the release of the tasks held by the agent `id`, part of
`db.DeleteAgent` (absent): "the task becomes reclaimable; its status reverts to ready". -/
def releaseTasks (agents : List AgentRow) (id : String) (tasks : List TaskRow) : List TaskRow :=
  tasks.map (fun t =>
    if agents.any (fun a => a.ID == id && a.TaskID == some t.ID) then { t with Status := "ready" }
    else t)

/-- Modelled from the spec: `db.DeleteAgent` (absent), "delete the store record; deleting
the record must atomically clear the task_id back-reference on whatever task it held"; a
failed deletion leaves the store as it was. -/
def DeleteAgent (w : World) (id : String) : Option Err × World :=
  let c := Call.DeleteAgent id
  if w.failsAt 0 then (some (.external c), w.attempt c)
  else
    (none, ((w.attempt c).setAgents (w.agents.filter (fun a => a.ID != id))).setTasks
      (releaseTasks w.agents id w.tasks))

/-- Modelled from the spec: `db.ListAgents` (absent), "lists all agents". -/
def ListAgents (w : World) : Except Err (List AgentRow) × World :=
  if w.failsAt 0 then (.error (.external .ListAgents), w.attempt .ListAgents)
  else (.ok w.agents, w.attempt .ListAgents)

/-- Modelled from the spec: `db.GetAgent` (absent), "try token as an exact agent id";
no row is `nil`, not an error. -/
def GetAgent (w : World) (id : String) : Except Err (Option AgentRow) × World :=
  let c := Call.GetAgent id
  if w.failsAt 0 then (.error (.external c), w.attempt c)
  else (.ok (w.agents.find? (fun a => a.ID == id)), w.attempt c)

/-- Modelled from the spec: `db.ResolvePartialID` (absent): "if exactly one task id
starts with token, resolve to that task"; "if more than one task id shares the prefix,
resolution fails with an ambiguous identifier condition"; "if zero tasks match,
resolution fails with not found". -/
def ResolvePartialID (w : World) (partialID : String) : Except Err String × World :=
  let c := Call.ResolvePartialID partialID
  if w.failsAt 0 then (.error (.external c), w.attempt c)
  else
    match (w.tasks.map (·.ID)).filter (fun t => HasPrefix t partialID) with
    | [] => (.error (.taskNotFound partialID), w.attempt c)
    | [t] => (.ok t, w.attempt c)
    | ts => (.error (.ambiguousID partialID ts), w.attempt c)

/-- Modelled from the spec: `db.GetAgentByTaskID` (absent), "look up whichever agent (if
any) currently holds it via its back-reference". -/
def GetAgentByTaskID (w : World) (taskID : String) : Except Err (Option AgentRow) × World :=
  let c := Call.GetAgentByTaskID taskID
  if w.failsAt 0 then (.error (.external c), w.attempt c)
  else (.ok (w.agents.find? (fun a => a.TaskID == some taskID)), w.attempt c)

/-- Modelled from the spec: `tmux.NewWindow` (absent), "create an execution unit (a named
window inside the given session) carrying the supplied environment variables". -/
def NewWindow (w : World) (session name : String) (env : List (String × String)) :
    Option Err × World :=
  let c := Call.NewWindow session name env
  if w.failsAt 0 then (some (.external c), w.attempt c)
  else (none, (w.attempt c).setWindows (w.windows ++ [(session, name)]))

/-- Modelled from the spec: `tmux.SendKeys` (absent), `sendInstruction(session, unit,
text) → error`. -/
def SendKeys (w : World) (session window keys : String) : Option Err × World :=
  let c := Call.SendKeys session window keys
  if w.failsAt 0 then (some (.external c), w.attempt c)
  else (none, w.attempt c)

/-- Modelled from the spec: `tmux.KillWindow` (absent), `destroyExecutionUnit(session,
unit) → error`. -/
def KillWindow (w : World) (session window : String) : Option Err × World :=
  let c := Call.KillWindow session window
  if w.failsAt 0 then (some (.external c), w.attempt c)
  else (none, (w.attempt c).setWindows (w.windows.filter (fun x => x != (session, window))))

/-- Modelled from the spec: `tmux.AttachOrSwitch` (absent), `attachOrSwitchTo(session,
unit)`. -/
def AttachOrSwitch (w : World) (session window : String) : Option Err × World :=
  let c := Call.AttachOrSwitch session window
  if w.failsAt 0 then (some (.external c), w.attempt c)
  else (none, w.attempt c)

/-! ## internal/agent/agent.go -/

/-- The descriptor `agent.Agent`. -/
structure Agent where
  ID : String
  TmuxSession : String
  TmuxWindow : String
  TaskID : Option String
  Status : String
  StartedAt : Nat
  LastSeen : Option Nat
deriving DecidableEq, Repr

/-- The functions of Go's standard library that `Spawn` uses and whose result depends
on the platform or on the working directory: `%q` quoting, `filepath.Dir`,
`filepath.Join` and the path returned by `filepath.Abs`. -/
structure GoLib where
  Quote : String → String
  Dir : String → String
  Join : List String → String
  Abs : String → String

/-- Lines 40-50 of `Spawn`: the scripts directory and the four bootstrap commands.
A missing key of the `env` map reads as the empty string. -/
def bootstrap (lib : GoLib) (agentID claudeMDPath : String) (env : List (String × String)) :
    List String :=
  let scriptsDir := lib.Join [lib.Dir claudeMDPath, "..", "scripts"]
  let absScripts := lib.Abs scriptsDir
  [ "export AGENT_ID=" ++ lib.Quote agentID,
    "export DATABASE_URL=" ++ lib.Quote ((env.lookup "DATABASE_URL").getD ""),
    "export PATH=\"$PATH:" ++ absScripts ++ "\"",
    "claude --dangerously-skip-permissions -p \"$(cat " ++ claudeMDPath ++ ")\"" ]

/-- Lines 52-56 of `Spawn`: the loop sending the bootstrap commands. -/
def sendBootstrap (tmuxSession agentID : String) : List String → World → Option Err × World
  | [], w => (none, w)
  | cmd :: rest, w =>
    match SendKeys w tmuxSession agentID cmd with
    | (some err, w1) => (some (.sendingBootstrapCommand err), w1)
    | (none, w1) => sendBootstrap tmuxSession agentID rest w1

/-- `Spawn` of `internal/agent/agent.go`. -/
def Spawn (lib : GoLib) (w : World) (tmuxSession agentID claudeMDPath : String)
    (env : List (String × String)) : Except Err Agent × World :=
  match RegisterAgent w agentID tmuxSession agentID with
  | (some err, w1) => (.error (.registeringAgent err), w1)
  | (none, w1) =>
    match NewWindow w1 tmuxSession agentID env with
    | (some err, w2) =>
      -- Clean up DB on failure; the result of `db.DeleteAgent` is dropped.
      (.error (.creatingTmuxWindow err), (DeleteAgent w2 agentID).2)
    | (none, w2) =>
      match sendBootstrap tmuxSession agentID (bootstrap lib agentID claudeMDPath env) w2 with
      | (some err, w3) => (.error err, w3)
      | (none, w3) =>
        (.ok ⟨agentID, tmuxSession, agentID, none, "idle", w3.now, some w3.now⟩, w3)

/-- `Kill` of `internal/agent/agent.go`: the result of `tmux.KillWindow` is dropped. -/
def Kill (w : World) (tmuxSession agentID : String) : Option Err × World :=
  match DeleteAgent (KillWindow w tmuxSession agentID).2 agentID with
  | (some err, w2) => (some (.deletingAgentFromDB err), w2)
  | (none, w2) => (none, w2)

/-- Lines 88-93 of `KillAll`: the loop over the listed agents. -/
def killEach (tmuxSession : String) : List AgentRow → World → World
  | [], w => w
  | a :: rest, w =>
    match Kill w tmuxSession a.ID with
    | (some err, w1) =>
      killEach tmuxSession rest (w1.print (.warningFailedToKill a.ID err))
    | (none, w1) => killEach tmuxSession rest w1

/-- `KillAll` of `internal/agent/agent.go`. -/
def KillAll (w : World) (tmuxSession : String) : Option Err × World :=
  match ListAgents w with
  | (.error err, w1) => (some (.listingAgents err), w1)
  | (.ok agents, w1) => (none, killEach tmuxSession agents w1)

/-- The external calls of the loop of `KillAll`: for each listed agent, in order, the
two calls of `Kill`. -/
def killCalls (tmuxSession : String) : List AgentRow → List Call
  | [] => []
  | a :: rest =>
    Call.KillWindow tmuxSession a.ID :: Call.DeleteAgent a.ID :: killCalls tmuxSession rest

/-! ## cmd/minuano/cmd_attach.go -/

/-- The function `attachCmd.RunE`; `session` is the result of `getSessionName()`. -/
def attachRunE (w : World) (session : String) (args : List String) : Option Err × World :=
  match connectDB w with
  | (some err, w1) => (some err, w1)
  | (none, w1) =>
    match args with
    | [] => AttachOrSwitch w1 session ""
    | id :: _ =>
      match GetAgent w1 id with
      | (.error err, w2) => (some err, w2)
      | (.ok (some agent), w2) => AttachOrSwitch w2 session agent.TmuxWindow
      | (.ok none, w2) =>
        match ResolvePartialID w2 id with
        | (.error _, w3) => (some (.noAgentOrTaskFound id), w3)
        | (.ok resolvedID, w3) =>
          match GetAgentByTaskID w3 resolvedID with
          | (.error err, w4) => (some err, w4)
          | (.ok none, w4) => (some (.noAgentWorkingOnTask resolvedID), w4)
          | (.ok (some taskAgent), w4) => AttachOrSwitch w4 session taskAgent.TmuxWindow

/-! ## Sample states -/

/-- A sample embedded directory, listed out of order, with a non-script entry. -/
def sampleFS : EmbedFS :=
  { ReadDir := some [⟨"002_tasks.sql", false⟩, ⟨"README.md", false⟩, ⟨"001_init.sql", false⟩,
      ⟨"003_context.sql", false⟩]
    ReadFile := fun n => some ("-- " ++ n) }

/-- A fresh database. -/
def freshDB : PgDB := ⟨none, []⟩

/-- A database on which `001_init.sql` has been applied. -/
def initDB : PgDB := ⟨some ["001_init.sql"], ["-- 001_init.sql"]⟩

/-- Faults in which only the execution of `002_tasks.sql` fails. -/
def failSecond : Faults := { Faults.none with exec := fun n => n == "002_tasks.sql" }

/-- The library functions at the arguments of the samples below: plain ASCII words
quote to themselves within double quotes, and `/repo/claude/../scripts` cleans to
`/repo/scripts`. -/
def sampleLib : GoLib :=
  { Quote := fun s => "\"" ++ s ++ "\""
    Dir := fun _ => "/repo/claude"
    Join := fun _ => "/repo/scripts"
    Abs := fun p => p }

/-- A sample environment map. -/
def sampleEnv : List (String × String) := [("DATABASE_URL", "postgres://minuano")]

/-- An empty store and process manager in which the calls numbered by `failing` fail. -/
def emptyWorld (failing : List Nat) : World :=
  { agents := [], tasks := [], windows := [], now := 1000,
    faults := fun k => failing.contains k, calls := [], stdout := [] }

/-- Three registered agents. -/
def threeAgents : List AgentRow :=
  [⟨"a1", "minuano", "a1", none, "idle", 10, none⟩,
   ⟨"a2", "minuano", "a2", some "task-7", "working", 20, some 25⟩,
   ⟨"a3", "minuano", "a3", none, "idle", 30, none⟩]

/-- A world holding `threeAgents` in which the calls numbered by `failing` fail. -/
def threeAgentWorld (failing : List Nat) : World :=
  { emptyWorld failing with
    agents := threeAgents
    windows := [("minuano", "a1"), ("minuano", "a2"), ("minuano", "a3")] }

/-- A store with two tasks whose ids share the prefix `abc`, and no agent. -/
def twoTaskWorld : World :=
  { emptyWorld [] with tasks := [⟨"abc123", "ready"⟩, ⟨"abc456", "ready"⟩] }

/-- A store in which the agent `abc` exists and `abc` is also a prefix of two task ids,
one of them held by another agent. -/
def precedenceWorld : World :=
  { emptyWorld [] with
    agents := [⟨"worker", "minuano", "worker-win", some "abc123", "working", 5, some 6⟩,
               ⟨"abc", "minuano", "abc-win", none, "idle", 7, none⟩]
    tasks := [⟨"abc123", "claimed"⟩, ⟨"abc456", "ready"⟩] }

/-! ## Go strings as byte sequences

`len(s)` and the slice `s[:n]` of a Go string count bytes, so the rendering helpers are
embedded on byte sequences. -/

/-- A Go string: its bytes. -/
abbrev Bytes := List UInt8

/-- The UTF-8 encoding of a sequence of characters. -/
def utf8 : List Char → Bytes
  | [] => []
  | c :: cs => String.utf8EncodeChar c ++ utf8 cs

/-- The Go string written as the literal `s`. -/
def bytes (s : String) : Bytes := utf8 s.toList

/-- The newline byte. -/
def newline : UInt8 := 10

/-- Go's `strings.Split(s, sep)` for a separator `sep` of a single byte: the pieces of `s`
between the occurrences of the separator (one piece more than there are occurrences). -/
def Split (s : Bytes) (sep : UInt8) : List Bytes :=
  match s with
  | [] => [[]]
  | b :: rest =>
    if b = sep then [] :: Split rest sep
    else
      match Split rest sep with
      | [] => [[b]]
      | piece :: pieces => (b :: piece) :: pieces

/-! ## cmd/minuano/cmd_search.go -/

/-- Lines 40-43 of `searchCmd.RunE`: the snippet of a context entry's content. -/
def snippet (content : Bytes) : Bytes :=
  if content.length > 200 then content.take 200 ++ bytes "..." else content

/-- Lines 44-46 of `searchCmd.RunE`: what the loop over the lines of the snippet prints,
one element per `fmt.Printf("  %s\n", line)`. -/
def printSnippet (content : Bytes) : List Bytes :=
  (Split (snippet content) newline).map (fun line => bytes "  " ++ line ++ bytes "\n")

/-! ## internal/tui/tui.go -/

/-- The function `truncate` of `internal/tui/tui.go`; `n` is a Go `int`, and `none` is the
run-time panic of the slice expression `s[:n]` for a negative `n`. -/
def truncate (s : Bytes) (n : Int) : Option Bytes :=
  if (s.length : Int) > n then
    if n < 0 then none else some (s.take n.toNat)
  else some s

/-- A content of 250 bytes: the letter `a` 120 times, a newline, the letter `b` 129
times. -/
def longContent : Bytes :=
  List.replicate 120 97 ++ [newline] ++ List.replicate 129 98

/-! ## Order of Go strings -/

theorem lexLe_total : ∀ a b : List Nat, lexLe a b = true ∨ lexLe b a = true
  | [], _ => by simp [lexLe]
  | _ :: _, [] => by simp [lexLe]
  | a :: as, b :: bs => by
    rcases Nat.lt_trichotomy a b with h | h | h
    · left; simp [lexLe, h]
    · subst h; simpa [lexLe] using lexLe_total as bs
    · right; simp [lexLe, h]

theorem lexLe_antisymm : ∀ a b : List Nat, lexLe a b = true → lexLe b a = true → a = b
  | [], [] => by simp
  | [], _ :: _ => by simp [lexLe]
  | _ :: _, [] => by simp [lexLe]
  | a :: as, b :: bs => by
    intro h1 h2
    rcases Nat.lt_trichotomy a b with h | h | h
    · have : ¬ b < a := by omega
      simp [lexLe, h, this] at h2
    · subst h
      simp [lexLe] at h1 h2
      rw [lexLe_antisymm as bs h1 h2]
    · have : ¬ a < b := by omega
      simp [lexLe, h, this] at h1

theorem lexLe_trans : ∀ a b c : List Nat, lexLe a b = true → lexLe b c = true → lexLe a c = true
  | [], _, _ => by simp [lexLe]
  | _ :: _, [], _ => by simp [lexLe]
  | _ :: _, _ :: _, [] => by simp [lexLe]
  | a :: as, b :: bs, c :: cs => by
    intro h1 h2
    simp only [lexLe] at h1 h2 ⊢
    split_ifs at h1 h2 ⊢ <;> first | rfl | omega | exact lexLe_trans as bs cs h1 h2

theorem codes_injective : Function.Injective codes := by
  intro s t h
  apply String.ext
  have hinj : Function.Injective Char.toNat := by
    intro c d hcd
    rw [← Char.ofNat_toNat c, ← Char.ofNat_toNat d, hcd]
  exact List.map_injective_iff.mpr hinj h

instance strLE_total : IsTotal String strLE := ⟨fun a b => lexLe_total (codes a) (codes b)⟩
instance strLE_trans : IsTrans String strLE :=
  ⟨fun a b c => lexLe_trans (codes a) (codes b) (codes c)⟩
instance strLE_antisymm : IsAntisymm String strLE :=
  ⟨fun a b h1 h2 => codes_injective (lexLe_antisymm (codes a) (codes b) h1 h2)⟩

theorem sortStrings_sorted (l : List String) : (sortStrings l).Sorted strLE :=
  List.sorted_insertionSort strLE l

theorem sortStrings_perm (l : List String) : (sortStrings l).Perm l :=
  List.perm_insertionSort strLE l

theorem sortStrings_congr {l l' : List String} (h : l.Perm l') : sortStrings l = sortStrings l' :=
  List.eq_of_perm_of_sorted ((sortStrings_perm l).trans (h.trans (sortStrings_perm l').symm))
    (sortStrings_sorted l) (sortStrings_sorted l')

/-! ## RunMigrations -/

theorem scanRows_eq {f : Faults} : ∀ {rows applied : List String},
    scanRows f rows = some applied → applied = rows
  | [], applied, h => by simpa [scanRows] using h.symm
  | name :: rest, applied, h => by
    simp only [scanRows] at h
    split_ifs at h
    cases hr : scanRows f rest with
    | none => simp [hr] at h
    | some a =>
      simp [hr] at h
      rw [← h, scanRows_eq hr]

theorem executedScripts_append (a b : List Stmt) :
    executedScripts (a ++ b) = executedScripts a ++ executedScripts b := by
  induction a with
  | nil => rfl
  | cons s rest ih => cases s <;> simp [executedScripts, ih]

theorem executedScripts_txTrace (fs : EmbedFS) (l : List String) :
    executedScripts (txTrace fs l) = l := by
  induction l with
  | nil => rfl
  | cons n rest ih => simp [txTrace, executedScripts, ih]

theorem commitAll_recorded (fs : EmbedFS) : ∀ (l : List String) (db : PgDB),
    (commitAll fs db l).recorded = db.recorded ++ l
  | [], db => by simp [commitAll]
  | n :: rest, db => by
    rw [commitAll, commitAll_recorded fs rest]
    simp [PgDB.commitMigration, PgDB.recorded]

theorem commitAll_table (fs : EmbedFS) : ∀ (l : List String) (db : PgDB),
    db.schema_migrations = some db.recorded →
    (commitAll fs db l).schema_migrations = some (commitAll fs db l).recorded
  | [], db, h => by simpa [commitAll] using h
  | n :: rest, db, _ => by
    simp only [commitAll]
    exact commitAll_table fs rest _ (by simp [PgDB.commitMigration, PgDB.recorded])

theorem pendingOf_cons_skip {applied : List String} {name : String} (rest : List String)
    (h : applied.contains name = true) : pendingOf applied (name :: rest) = pendingOf applied rest := by
  simp only [pendingOf, List.filter_cons, h, Bool.not_true]
  rfl

theorem pendingOf_cons_keep {applied : List String} {name : String} (rest : List String)
    (h : applied.contains name = false) :
    pendingOf applied (name :: rest) = name :: pendingOf applied rest := by
  simp only [pendingOf, List.filter_cons, h, Bool.not_false]
  rfl

theorem applyPending_skip (fs : EmbedFS) (f : Faults) {applied : List String} {name : String}
    (rest newly : List String) (db : PgDB) (tr : List Stmt) (h : applied.contains name = true) :
    applyPending fs f applied (name :: rest) newly db tr =
      applyPending fs f applied rest newly db tr := by
  rw [applyPending, if_pos h]

/-- One iteration whose transaction commits. -/
theorem applyPending_commit (fs : EmbedFS) (f : Faults) {applied : List String}
    {name sql : String} (rest newly : List String) (db : PgDB) (tr : List Stmt)
    (ha : applied.contains name = false) (hf : fs.ReadFile name = some sql)
    (h1 : f.begin name = false) (h2 : f.exec name = false) (h3 : f.record name = false)
    (h4 : db.recorded.contains name = false) (h5 : f.commit name = false) :
    applyPending fs f applied (name :: rest) newly db tr =
      applyPending fs f applied rest (newly ++ [name]) (db.commitMigration name sql)
        (tr ++ [.begin, .execScript name sql, .insertFilename name, .commit]) := by
  rw [applyPending]
  simp only [ha, hf, h1, h2, h3, h4, h5, Bool.false_eq_true, if_false, Bool.or_self]

/-- A run of the loop that returns no error committed exactly the pending filenames,
in the order of the list. -/
theorem applyPending_ok (fs : EmbedFS) (f : Faults) (applied : List String) :
    ∀ (l newly : List String) (db : PgDB) (tr : List Stmt),
      (applyPending fs f applied l newly db tr).err = none →
      applyPending fs f applied l newly db tr =
        ⟨newly ++ pendingOf applied l, none, commitAll fs db (pendingOf applied l),
          tr ++ txTrace fs (pendingOf applied l)⟩
  | [], newly, db, tr, _ => by simp [applyPending, pendingOf, commitAll, txTrace]
  | name :: rest, newly, db, tr, h => by
    cases ha : applied.contains name with
    | true =>
      rw [applyPending_skip fs f rest newly db tr ha] at h ⊢
      rw [applyPending_ok fs f applied rest newly db tr h, pendingOf_cons_skip rest ha]
    | false =>
      cases hf : fs.ReadFile name with
      | none =>
        rw [applyPending] at h; simp only [ha, hf] at h; simp at h
      | some sql =>
        cases h1 : f.begin name with
        | true => rw [applyPending] at h; simp only [ha, hf, h1] at h; simp at h
        | false =>
          cases h2 : f.exec name with
          | true => rw [applyPending] at h; simp only [ha, hf, h1, h2] at h; simp at h
          | false =>
            cases h3 : f.record name with
            | true => rw [applyPending] at h; simp only [ha, hf, h1, h2, h3] at h; simp at h
            | false =>
              cases h4 : db.recorded.contains name with
              | true => rw [applyPending] at h; simp only [ha, hf, h1, h2, h3, h4] at h; simp at h
              | false =>
                cases h5 : f.commit name with
                | true =>
                  rw [applyPending] at h; simp only [ha, hf, h1, h2, h3, h4, h5] at h; simp at h
                | false =>
                  rw [applyPending_commit fs f rest newly db tr ha hf h1 h2 h3 h4 h5] at h ⊢
                  rw [applyPending_ok fs f applied rest _ _ _ h, pendingOf_cons_keep rest ha]
                  simp [commitAll, txTrace, hf]

theorem applyPending_all_applied (fs : EmbedFS) (f : Faults) (applied : List String) :
    ∀ (l newly : List String) (db : PgDB) (tr : List Stmt),
      (∀ n ∈ l, applied.contains n = true) →
      applyPending fs f applied l newly db tr = ⟨newly, none, db, tr⟩
  | [], newly, db, tr, _ => by rw [applyPending]
  | name :: rest, newly, db, tr, h => by
    rw [applyPending_skip fs f rest newly db tr (h name (List.mem_cons_self _ _))]
    exact applyPending_all_applied fs f applied rest newly db tr
      (fun n hn => h n (List.mem_cons_of_mem _ hn))

/-- The shape of a run that returns no error. -/
theorem RunMigrations_ok (fs : EmbedFS) (f : Faults) (db : PgDB)
    (h : (RunMigrations fs f db).err = none) :
    ∃ entries, fs.ReadDir = some entries ∧ f.readsOK db = true ∧
      RunMigrations fs f db =
        ⟨pendingOf db.recorded (sortStrings (sqlFilenames entries)), none,
          commitAll fs { db with schema_migrations := some db.recorded }
            (pendingOf db.recorded (sortStrings (sqlFilenames entries))),
          [.createTable, .selectFilenames] ++
            txTrace fs (pendingOf db.recorded (sortStrings (sqlFilenames entries)))⟩ := by
  unfold RunMigrations at h ⊢
  cases hc : f.createTable with
  | true => simp [hc] at h
  | false =>
    cases hd : fs.ReadDir with
    | none => simp [hc, hd] at h
    | some entries =>
      cases hq : f.query with
      | true => simp [hc, hd, hq] at h
      | false =>
        have hrec : PgDB.recorded { db with schema_migrations := some db.recorded } = db.recorded := rfl
        cases hs : scanRows f db.recorded with
        | none => simp [hc, hd, hq, hrec, hs] at h
        | some applied =>
          have happ := scanRows_eq hs
          subst happ
          cases hr : f.rowsErr with
          | true => simp [hc, hd, hq, hrec, hs, hr] at h
          | false =>
            simp only [hc, hd, hq, hrec, hs, hr, Bool.false_eq_true, if_false] at h ⊢
            refine ⟨entries, rfl, ?_, ?_⟩
            · simp [Faults.readsOK, hc, hq, hs, hr]
            · rw [applyPending_ok fs f _ _ _ _ _ h]
              simp

/-- A run on a database whose tracking table exists and already records every script
changes nothing, whatever fails. -/
theorem RunMigrations_noop (fs : EmbedFS) (f : Faults) (db : PgDB) (entries : List DirEntry)
    (ht : db.schema_migrations = some db.recorded) (hd : fs.ReadDir = some entries)
    (hall : ∀ n ∈ sortStrings (sqlFilenames entries), db.recorded.contains n = true) :
    (RunMigrations fs f db).newly = [] ∧ executedScripts (RunMigrations fs f db).trace = [] ∧
      (RunMigrations fs f db).db = db ∧
      ((RunMigrations fs f db).err = none ↔ f.readsOK db = true) := by
  have hdb : ({ db with schema_migrations := some db.recorded } : PgDB) = db := by
    cases db with
    | mk t c => simp only [PgDB.recorded] at ht ⊢; simp [← ht]
  unfold RunMigrations
  rw [hdb, hd]
  cases hc : f.createTable with
  | true => simp [Faults.readsOK, hc, executedScripts]
  | false =>
    cases hq : f.query with
    | true => simp [Faults.readsOK, hc, hq, executedScripts]
    | false =>
      cases hs : scanRows f db.recorded with
      | none => simp [Faults.readsOK, hc, hq, hs, executedScripts]
      | some applied =>
        have happ := scanRows_eq hs
        subst happ
        cases hr : f.rowsErr with
        | true => simp [Faults.readsOK, hc, hq, hs, hr, executedScripts]
        | false =>
          simp only [hs, Bool.false_eq_true, if_false]
          rw [applyPending_all_applied fs f _ _ _ _ _ hall]
          simp [Faults.readsOK, hc, hq, hs, hr, executedScripts]

theorem mem_recorded_or_pending (applied l : List String) (n : String) (hn : n ∈ l) :
    (applied ++ pendingOf applied l).contains n = true := by
  by_cases h : n ∈ applied
  · simp [h]
  · simp [pendingOf, h, hn]

/-- C1 (migration idempotence): after a run of `RunMigrations` that returned no error, a
second run on the resulting database with the same embedded scripts returns the empty
list, executes no script and leaves the database (in particular the recorded filenames)
unchanged, whatever fails in it; and it returns no error exactly when its own reads of
the tracking table succeed. -/
theorem RunMigrations_idempotent (fs : EmbedFS) (f f2 : Faults) (db : PgDB)
    (h : (RunMigrations fs f db).err = none) :
    (RunMigrations fs f2 (RunMigrations fs f db).db).newly = [] ∧
      executedScripts (RunMigrations fs f2 (RunMigrations fs f db).db).trace = [] ∧
      (RunMigrations fs f2 (RunMigrations fs f db).db).db = (RunMigrations fs f db).db ∧
      (RunMigrations fs f2 (RunMigrations fs f db).db).db.recorded
        = (RunMigrations fs f db).db.recorded ∧
      ((RunMigrations fs f2 (RunMigrations fs f db).db).err = none ↔
        f2.readsOK (RunMigrations fs f db).db = true) := by
  obtain ⟨entries, hd, -, hrun⟩ := RunMigrations_ok fs f db h
  rw [hrun]
  have hnoop := RunMigrations_noop fs f2
    (commitAll fs { db with schema_migrations := some db.recorded }
      (pendingOf db.recorded (sortStrings (sqlFilenames entries)))) entries
    (commitAll_table fs _ _ rfl) hd
    (by
      intro n hn
      rw [commitAll_recorded]
      exact mem_recorded_or_pending db.recorded _ n hn)
  obtain ⟨h1, h2, h3, h4⟩ := hnoop
  exact ⟨h1, h2, h3, by rw [h3], h4⟩

/-- Witness for C1: two runs over the sample directory on a fresh database. -/
theorem RunMigrations_idempotent_witness :
    (RunMigrations sampleFS Faults.none freshDB).err = none ∧
      (RunMigrations sampleFS Faults.none (RunMigrations sampleFS Faults.none freshDB).db).newly
        = [] ∧
      (RunMigrations sampleFS Faults.none (RunMigrations sampleFS Faults.none freshDB).db).err
        = none :=
  have h : (RunMigrations sampleFS Faults.none freshDB).err = none := by decide
  ⟨h, (RunMigrations_idempotent sampleFS Faults.none Faults.none freshDB h).1,
    (RunMigrations_idempotent sampleFS Faults.none Faults.none freshDB h).2.2.2.2.mpr
      (by decide)⟩

theorem sqlFilenames_perm {entries entries' : List DirEntry} (h : entries'.Perm entries) :
    (sqlFilenames entries').Perm (sqlFilenames entries) :=
  (h.filter _).map _

/-- The loop reads the file system through `ReadFile` only. -/
theorem applyPending_readFile (fs fs' : EmbedFS) (f : Faults) {applied : List String}
    (h : fs'.ReadFile = fs.ReadFile) :
    ∀ (l newly : List String) (db : PgDB) (tr : List Stmt),
      applyPending fs' f applied l newly db tr = applyPending fs f applied l newly db tr
  | [], newly, db, tr => by simp only [applyPending]
  | name :: rest, newly, db, tr => by
    simp only [applyPending, h, applyPending_readFile fs fs' f h rest]

/-- The listing order is irrelevant: only `ReadDir`'s set of entries matters. -/
theorem RunMigrations_listing_perm (fs : EmbedFS) (f : Faults) (db : PgDB)
    (entries entries' : List DirEntry) (hd : fs.ReadDir = some entries)
    (hp : entries'.Perm entries) :
    RunMigrations { fs with ReadDir := some entries' } f db = RunMigrations fs f db := by
  unfold RunMigrations
  simp only [hd, sortStrings_congr (sqlFilenames_perm hp)]
  simp only [applyPending_readFile fs { fs with ReadDir := some entries' } f rfl]

theorem applyPending_pendingOf (fs : EmbedFS) (f : Faults) (applied : List String) :
    ∀ (l newly : List String) (db : PgDB) (tr : List Stmt),
      applyPending fs f applied l newly db tr =
        applyPending fs f applied (pendingOf applied l) newly db tr
  | [], newly, db, tr => by simp only [pendingOf, List.filter_nil]
  | name :: rest, newly, db, tr => by
    cases ha : applied.contains name with
    | true =>
      rw [applyPending_skip fs f rest newly db tr ha, pendingOf_cons_skip rest ha]
      exact applyPending_pendingOf fs f applied rest newly db tr
    | false =>
      rw [pendingOf_cons_keep rest ha]
      simp only [applyPending, ha, applyPending_pendingOf fs f applied rest]

theorem mem_pendingOf {applied l : List String} {n : String} (h : n ∈ pendingOf applied l) :
    n ∈ l ∧ applied.contains n = false := by
  simpa [pendingOf] using h

/-- A prefix of iterations in which nothing fails commits every script of the prefix. -/
theorem applyPending_commits (fs : EmbedFS) (f : Faults) (applied : List String) :
    ∀ (pre rest newly : List String) (db : PgDB) (tr : List Stmt),
      (∀ p ∈ pre, applied.contains p = false) → (∀ p ∈ pre, stepOK fs f p = true) →
      pre.Nodup → (∀ p ∈ pre, db.recorded.contains p = false) →
      applyPending fs f applied (pre ++ rest) newly db tr =
        applyPending fs f applied rest (newly ++ pre) (commitAll fs db pre)
          (tr ++ txTrace fs pre)
  | [], rest, newly, db, tr, _, _, _, _ => by simp [commitAll, txTrace]
  | p :: pre, rest, newly, db, tr, ha, hok, hnd, hrec => by
    have hp := hok p (List.mem_cons_self _ _)
    simp only [stepOK, Bool.and_eq_true, Bool.not_eq_true', Option.isSome_iff_exists] at hp
    obtain ⟨⟨⟨⟨⟨sql, hf⟩, h1⟩, h2⟩, h3⟩, h5⟩ := hp
    rw [List.cons_append, applyPending_commit fs f (pre ++ rest) newly db tr
      (ha p (List.mem_cons_self _ _)) hf h1 h2 h3 (hrec p (List.mem_cons_self _ _)) h5]
    rw [applyPending_commits fs f applied pre rest _ _ _
      (fun q hq => ha q (List.mem_cons_of_mem _ hq))
      (fun q hq => hok q (List.mem_cons_of_mem _ hq)) (List.nodup_cons.mp hnd).2]
    · simp [commitAll, txTrace, hf]
    · intro q hq
      have hne : q ≠ p := fun h => (List.nodup_cons.mp hnd).1 (h ▸ hq)
      have hq' := hrec q (List.mem_cons_of_mem _ hq)
      simp only [List.contains_eq_any_beq, List.any_eq_false, beq_iff_eq] at hq' ⊢
      intro x hx
      simp only [PgDB.commitMigration, PgDB.recorded, Option.getD_some, List.mem_append,
        List.mem_singleton] at hx
      rcases hx with hx | hx
      · exact hq' x hx
      · rw [hx]; exact fun h => hne h

/-- The iteration of a script whose execution, recording or commit fails. -/
theorem applyPending_fail (fs : EmbedFS) (f : Faults) {applied : List String}
    {name sql : String} (rest newly : List String) (db : PgDB) (tr : List Stmt)
    (ha : applied.contains name = false) (hf : fs.ReadFile name = some sql)
    (h1 : f.begin name = false) (h4 : db.recorded.contains name = false)
    (hfail : (f.exec name || f.record name || f.commit name) = true) :
    (applyPending fs f applied (name :: rest) newly db tr).newly = newly ∧
      (applyPending fs f applied (name :: rest) newly db tr).err = some (stepErr f name) ∧
      (applyPending fs f applied (name :: rest) newly db tr).db = db ∧
      executedScripts (applyPending fs f applied (name :: rest) newly db tr).trace
        = executedScripts tr ++ [name] := by
  rw [applyPending]
  simp only [ha, hf, h1, Bool.false_eq_true, if_false, stepErr]
  cases h2 : f.exec name with
  | true => simp [executedScripts_append, executedScripts]
  | false =>
    cases h3 : f.record name with
    | true =>
      simp only [h4, Bool.true_or, Bool.false_eq_true, if_false, if_true]
      simp [executedScripts_append, executedScripts]
    | false =>
      have h5 : f.commit name = true := by simpa [h2, h3] using hfail
      simp only [h4, h5, Bool.or_self, Bool.false_eq_true, if_false, if_true]
      simp [executedScripts_append, executedScripts]

/-- When the reads succeed, the run is the loop over the sorted filenames. -/
theorem RunMigrations_reads (fs : EmbedFS) (f : Faults) (db : PgDB) (entries : List DirEntry)
    (hreads : f.readsOK db = true) (hd : fs.ReadDir = some entries) :
    RunMigrations fs f db =
      applyPending fs f db.recorded (sortStrings (sqlFilenames entries)) []
        { db with schema_migrations := some db.recorded }
        [.createTable, .selectFilenames] := by
  simp only [Faults.readsOK, Bool.and_eq_true, Bool.not_eq_true', Option.isSome_iff_exists]
    at hreads
  obtain ⟨⟨⟨hc, hq⟩, ⟨applied, hs⟩⟩, hr⟩ := hreads
  have happ := scanRows_eq hs
  subst happ
  have hrec : PgDB.recorded { db with schema_migrations := some db.recorded } = db.recorded := rfl
  unfold RunMigrations
  simp only [hc, hd, hq, hrec, hs, hr, Bool.false_eq_true, if_false]

theorem sqlFilenames_nodup {entries : List DirEntry}
    (h : (entries.map (·.Name)).Nodup) : (sqlFilenames entries).Nodup :=
  h.sublist ((List.filter_sublist entries).map _)

theorem contains_eq_false_of_not_mem {l : List String} {n : String} (h : n ∉ l) :
    l.contains n = false := by
  simpa using h

/-- C3 (migration failure atomicity): when the reads succeed, the listing has no
repeated name, and the pending filenames in sorted order are `pre ++ name :: post`
where nothing fails for the scripts of `pre` and the execution, recording or commit of
`name` fails, then `RunMigrations` returns `pre` together with the error of `name`, the
scripts executed are those of `pre` and then `name` (none of `post`), and the tracking
table afterwards holds the filenames recorded before followed by `pre`, and not `name`. -/
theorem RunMigrations_failure (fs : EmbedFS) (f : Faults) (db : PgDB)
    (entries : List DirEntry) (pre post : List String) (name sql : String)
    (hreads : f.readsOK db = true) (hd : fs.ReadDir = some entries)
    (hnodup : (entries.map (·.Name)).Nodup)
    (hpend : pendingOf db.recorded (sortStrings (sqlFilenames entries)) = pre ++ name :: post)
    (hpre : ∀ p ∈ pre, stepOK fs f p = true)
    (hf : fs.ReadFile name = some sql) (hb : f.begin name = false)
    (hfail : (f.exec name || f.record name || f.commit name) = true) :
    (RunMigrations fs f db).newly = pre ∧
      (RunMigrations fs f db).err = some (stepErr f name) ∧
      executedScripts (RunMigrations fs f db).trace = pre ++ [name] ∧
      (RunMigrations fs f db).db.recorded = db.recorded ++ pre ∧
      name ∉ (RunMigrations fs f db).db.recorded := by
  have hnd : (pre ++ name :: post).Nodup := by
    rw [← hpend]
    exact ((sortStrings_perm _).nodup_iff.mpr (sqlFilenames_nodup hnodup)).filter _
  have hmem : ∀ p ∈ pre ++ name :: post, db.recorded.contains p = false := by
    intro p hp
    rw [← hpend] at hp
    exact (mem_pendingOf hp).2
  have hpre_nd : pre.Nodup := (List.nodup_append.mp hnd).1
  have hname_pre : name ∉ pre := fun h =>
    (List.nodup_append.mp hnd).2.2 h (List.mem_cons_self _ _)
  have hname_rec : name ∉ db.recorded := by
    simpa using hmem name (by simp)
  have hname : name ∉ db.recorded ++ pre := by
    simp [hname_rec, hname_pre]
  rw [RunMigrations_reads fs f db entries hreads hd, applyPending_pendingOf, hpend,
    applyPending_commits fs f db.recorded pre (name :: post) []
      { db with schema_migrations := some db.recorded } _
      (fun p hp => hmem p (by simp [hp])) hpre hpre_nd (fun p hp => hmem p (by simp [hp]))]
  have hrec : (commitAll fs { db with schema_migrations := some db.recorded } pre).recorded
      = db.recorded ++ pre := by
    rw [commitAll_recorded]; rfl
  obtain ⟨h1, h2, h3, h4⟩ := applyPending_fail fs f post ([] ++ pre)
    (commitAll fs { db with schema_migrations := some db.recorded } pre)
    ([.createTable, .selectFilenames] ++ txTrace fs pre) (hmem name (by simp)) hf hb
    (by rw [hrec]; exact contains_eq_false_of_not_mem hname) hfail
  refine ⟨by simpa using h1, h2, ?_, by rw [h3, hrec], by rw [h3, hrec]; exact hname⟩
  rw [h4]
  simp [executedScripts_append, executedScripts, executedScripts_txTrace]

/-- Witness for C3: the second of three pending scripts fails to execute. -/
theorem RunMigrations_failure_witness :
    (RunMigrations sampleFS failSecond freshDB).newly = ["001_init.sql"] ∧
      (RunMigrations sampleFS failSecond freshDB).err
        = some (stepErr failSecond "002_tasks.sql") ∧
      executedScripts (RunMigrations sampleFS failSecond freshDB).trace
        = ["001_init.sql"] ++ ["002_tasks.sql"] ∧
      (RunMigrations sampleFS failSecond freshDB).db.recorded
        = freshDB.recorded ++ ["001_init.sql"] ∧
      "002_tasks.sql" ∉ (RunMigrations sampleFS failSecond freshDB).db.recorded :=
  RunMigrations_failure sampleFS failSecond freshDB _ ["001_init.sql"] ["003_context.sql"]
    "002_tasks.sql" "-- 002_tasks.sql" (by decide) rfl (by decide) (by decide) (by decide)
    (by decide) (by decide) (by decide)

/-- A run in which the reads succeed, the listing has no repeated name and nothing fails
for any pending script commits every pending script, in sorted order, without error. -/
theorem RunMigrations_all_ok (fs : EmbedFS) (f : Faults) (db : PgDB) (entries : List DirEntry)
    (hd : fs.ReadDir = some entries) (hreads : f.readsOK db = true)
    (hnodup : (entries.map (·.Name)).Nodup)
    (hok : ∀ n ∈ pendingOf db.recorded (sqlFilenames entries), stepOK fs f n = true) :
    RunMigrations fs f db =
      ⟨pendingOf db.recorded (sortStrings (sqlFilenames entries)), none,
        commitAll fs { db with schema_migrations := some db.recorded }
          (pendingOf db.recorded (sortStrings (sqlFilenames entries))),
        [.createTable, .selectFilenames] ++
          txTrace fs (pendingOf db.recorded (sortStrings (sqlFilenames entries)))⟩ := by
  have hnd : (pendingOf db.recorded (sortStrings (sqlFilenames entries))).Nodup :=
    ((sortStrings_perm _).nodup_iff.mpr (sqlFilenames_nodup hnodup)).filter _
  have hmem : ∀ p ∈ pendingOf db.recorded (sortStrings (sqlFilenames entries)),
      db.recorded.contains p = false := fun p hp => (mem_pendingOf hp).2
  have hstep : ∀ p ∈ pendingOf db.recorded (sortStrings (sqlFilenames entries)),
      stepOK fs f p = true := fun p hp =>
    hok p (((sortStrings_perm (sqlFilenames entries)).filter _).subset hp)
  rw [RunMigrations_reads fs f db entries hreads hd, applyPending_pendingOf]
  have happ := applyPending_commits fs f db.recorded
    (pendingOf db.recorded (sortStrings (sqlFilenames entries))) [] []
    { db with schema_migrations := some db.recorded } [.createTable, .selectFilenames]
    hmem hstep hnd hmem
  rw [List.append_nil] at happ
  rw [happ, applyPending]
  simp

/-- C2 (migration ordering): for every directory listing (without repeated names, as
every directory listing is) and every set of recorded filenames, when the reads of the
run succeed and nothing fails for any pending script, `RunMigrations` returns no error
and the list of the not-yet-recorded `.sql` filenames of the listing in ascending order:
the returned list is sorted, is a rearrangement of those filenames, is the sequence of
scripts executed and is what the run appends to the tracking table; and the whole outcome
is the same for every permutation of the listing. -/
theorem RunMigrations_order (fs : EmbedFS) (f : Faults) (db : PgDB) (entries : List DirEntry)
    (hd : fs.ReadDir = some entries) (hreads : f.readsOK db = true)
    (hnodup : (entries.map (·.Name)).Nodup)
    (hok : ∀ n ∈ pendingOf db.recorded (sqlFilenames entries), stepOK fs f n = true) :
    (RunMigrations fs f db).err = none ∧
      (RunMigrations fs f db).newly
        = pendingOf db.recorded (sortStrings (sqlFilenames entries)) ∧
      (RunMigrations fs f db).newly.Sorted strLE ∧
      (RunMigrations fs f db).newly.Perm (pendingOf db.recorded (sqlFilenames entries)) ∧
      executedScripts (RunMigrations fs f db).trace = (RunMigrations fs f db).newly ∧
      (RunMigrations fs f db).db.recorded = db.recorded ++ (RunMigrations fs f db).newly ∧
      ∀ entries' : List DirEntry, entries'.Perm entries →
        RunMigrations { fs with ReadDir := some entries' } f db = RunMigrations fs f db := by
  have hrun := RunMigrations_all_ok fs f db entries hd hreads hnodup hok
  refine ⟨?_, ?_, ?_, ?_, ?_, ?_,
    fun entries' hp => RunMigrations_listing_perm fs f db _ entries' hd hp⟩
  · rw [hrun]
  · rw [hrun]
  · rw [hrun]
    exact List.Pairwise.filter _ (sortStrings_sorted _)
  · rw [hrun]
    exact (sortStrings_perm _).filter _
  · rw [hrun]
    simp [executedScripts_append, executedScripts, executedScripts_txTrace]
  · rw [hrun]
    simp only
    rw [commitAll_recorded]
    rfl

/-- Witness for C2: the sample directory, listed out of order, on a database that already
records `001_init.sql`: the two other scripts are applied, in ascending order. -/
theorem RunMigrations_order_witness :
    (RunMigrations sampleFS Faults.none initDB).err = none ∧
      (RunMigrations sampleFS Faults.none initDB).newly = ["002_tasks.sql", "003_context.sql"] ∧
      executedScripts (RunMigrations sampleFS Faults.none initDB).trace
        = (RunMigrations sampleFS Faults.none initDB).newly ∧
      (RunMigrations sampleFS Faults.none initDB).db.recorded
        = ["001_init.sql", "002_tasks.sql", "003_context.sql"] :=
  ⟨(RunMigrations_order sampleFS Faults.none initDB _ rfl (by decide) (by decide)
      (by decide)).1,
    by decide,
    (RunMigrations_order sampleFS Faults.none initDB _ rfl (by decide) (by decide)
      (by decide)).2.2.2.2.1,
    by decide⟩

/-! ## The store and the process manager -/

@[simp]
theorem attempt_calls (w : World) (c : Call) : (w.attempt c).calls = w.calls ++ [c] := rfl
@[simp]
theorem attempt_agents (w : World) (c : Call) : (w.attempt c).agents = w.agents := rfl
@[simp]
theorem attempt_windows (w : World) (c : Call) : (w.attempt c).windows = w.windows := rfl
@[simp]
theorem attempt_now (w : World) (c : Call) : (w.attempt c).now = w.now := rfl
@[simp]
theorem attempt_stdout (w : World) (c : Call) : (w.attempt c).stdout = w.stdout := rfl
@[simp]
theorem attempt_tasks (w : World) (c : Call) : (w.attempt c).tasks = w.tasks := rfl
@[simp]
theorem setAgents_calls (w : World) (l : List AgentRow) : (w.setAgents l).calls = w.calls := rfl
@[simp]
theorem setAgents_agents (w : World) (l : List AgentRow) : (w.setAgents l).agents = l := rfl
@[simp]
theorem setAgents_windows (w : World) (l : List AgentRow) :
    (w.setAgents l).windows = w.windows := rfl
@[simp]
theorem setAgents_now (w : World) (l : List AgentRow) : (w.setAgents l).now = w.now := rfl
@[simp]
theorem setAgents_stdout (w : World) (l : List AgentRow) :
    (w.setAgents l).stdout = w.stdout := rfl
@[simp]
theorem setWindows_calls (w : World) (l : List (String × String)) :
    (w.setWindows l).calls = w.calls := rfl
@[simp]
theorem setWindows_agents (w : World) (l : List (String × String)) :
    (w.setWindows l).agents = w.agents := rfl
@[simp]
theorem setWindows_windows (w : World) (l : List (String × String)) :
    (w.setWindows l).windows = l := rfl
@[simp]
theorem setWindows_now (w : World) (l : List (String × String)) :
    (w.setWindows l).now = w.now := rfl
@[simp]
theorem setWindows_stdout (w : World) (l : List (String × String)) :
    (w.setWindows l).stdout = w.stdout := rfl
@[simp]
theorem setTasks_calls (w : World) (l : List TaskRow) : (w.setTasks l).calls = w.calls := rfl
@[simp]
theorem setTasks_agents (w : World) (l : List TaskRow) : (w.setTasks l).agents = w.agents := rfl
@[simp]
theorem setTasks_windows (w : World) (l : List TaskRow) :
    (w.setTasks l).windows = w.windows := rfl
@[simp]
theorem setTasks_failsAt (w : World) (l : List TaskRow) (k : Nat) :
    (w.setTasks l).failsAt k = w.failsAt k := rfl
@[simp]
theorem agentIDs_setTasks (w : World) (l : List TaskRow) :
    (w.setTasks l).agentIDs = w.agentIDs := rfl
@[simp]
theorem print_calls (w : World) (o : Output) : (w.print o).calls = w.calls := rfl
@[simp]
theorem print_agents (w : World) (o : Output) : (w.print o).agents = w.agents := rfl
@[simp]
theorem print_stdout (w : World) (o : Output) : (w.print o).stdout = w.stdout ++ [o] := rfl

@[simp]
theorem attempt_failsAt (w : World) (c : Call) (k : Nat) :
    (w.attempt c).failsAt k = w.failsAt (k + 1) := by
  simp only [World.failsAt, World.attempt, List.length_append, List.length_singleton]
  congr 1
  omega

@[simp]
theorem setAgents_failsAt (w : World) (l : List AgentRow) (k : Nat) :
    (w.setAgents l).failsAt k = w.failsAt k := rfl

@[simp]
theorem setWindows_failsAt (w : World) (l : List (String × String)) (k : Nat) :
    (w.setWindows l).failsAt k = w.failsAt k := rfl

@[simp]
theorem print_failsAt (w : World) (o : Output) (k : Nat) :
    (w.print o).failsAt k = w.failsAt k := rfl

@[simp]
theorem agentIDs_attempt (w : World) (c : Call) : (w.attempt c).agentIDs = w.agentIDs := rfl
@[simp]
theorem agentIDs_setWindows (w : World) (l : List (String × String)) :
    (w.setWindows l).agentIDs = w.agentIDs := rfl
@[simp]
theorem agentIDs_print (w : World) (o : Output) : (w.print o).agentIDs = w.agentIDs := rfl
@[simp]
theorem agentIDs_setAgents (w : World) (l : List AgentRow) :
    (w.setAgents l).agentIDs = l.map (·.ID) := rfl

/-- Registration succeeds exactly when the call does not fail and the id is new. -/
theorem RegisterAgent_eq_none (w : World) (id session window : String) :
    (RegisterAgent w id session window).1 = none ↔
      w.failsAt 0 = false ∧ w.agentIDs.contains id = false := by
  unfold RegisterAgent
  cases h0 : w.failsAt 0 <;> cases hd : w.agentIDs.contains id <;> simp [h0, hd]

theorem RegisterAgent_ok {w : World} {id : String} (session window : String)
    (h0 : w.failsAt 0 = false) (hd : w.agentIDs.contains id = false) :
    RegisterAgent w id session window =
      (none, (w.attempt (.RegisterAgent id session window)).setAgents
        (w.agents ++ [⟨id, session, window, none, "idle", w.now, none⟩])) := by
  unfold RegisterAgent
  simp only [h0, hd, Bool.false_eq_true, if_false]

theorem NewWindow_fail {w : World} (session name : String) (env : List (String × String))
    (h : w.failsAt 0 = true) :
    NewWindow w session name env =
      (some (.external (.NewWindow session name env)), w.attempt (.NewWindow session name env)) := by
  unfold NewWindow
  simp only [h, if_true]

theorem NewWindow_ok {w : World} (session name : String) (env : List (String × String))
    (h : w.failsAt 0 = false) :
    NewWindow w session name env =
      (none, (w.attempt (.NewWindow session name env)).setWindows
        (w.windows ++ [(session, name)])) := by
  unfold NewWindow
  simp only [h, Bool.false_eq_true, if_false]

theorem NewWindow_eq_none (w : World) (session name : String) (env : List (String × String)) :
    (NewWindow w session name env).1 = none ↔ w.failsAt 0 = false := by
  unfold NewWindow
  cases h0 : w.failsAt 0 <;> simp [h0]

theorem DeleteAgent_calls (w : World) (id : String) :
    (DeleteAgent w id).2.calls = w.calls ++ [.DeleteAgent id] := by
  unfold DeleteAgent
  cases h0 : w.failsAt 0 <;> simp [h0]

theorem DeleteAgent_eq_none (w : World) (id : String) :
    (DeleteAgent w id).1 = none ↔ w.failsAt 0 = false := by
  unfold DeleteAgent
  cases h0 : w.failsAt 0 <;> simp [h0]

theorem DeleteAgent_ok {w : World} (id : String) (h : w.failsAt 0 = false) :
    DeleteAgent w id =
      (none, ((w.attempt (.DeleteAgent id)).setAgents
        (w.agents.filter (fun a => a.ID != id))).setTasks (releaseTasks w.agents id w.tasks)) := by
  unfold DeleteAgent
  simp only [h, Bool.false_eq_true, if_false]

/-! ## Spawn -/

/-- C4, as amended (saga compensation): when registration succeeds and window creation
fails, `Spawn` returns the window-creation error and its external calls are the
registration, the window creation and one `DeleteAgent` of the agent id; when that
deletion succeeds, the store holds no record for the agent id afterwards. -/
theorem Spawn_compensation (lib : GoLib) (w : World) (tmuxSession agentID claudeMDPath : String)
    (env : List (String × String))
    (hreg : (RegisterAgent w agentID tmuxSession agentID).1 = none)
    (hwin : (NewWindow (RegisterAgent w agentID tmuxSession agentID).2 tmuxSession agentID env).1
      ≠ none) :
    (Spawn lib w tmuxSession agentID claudeMDPath env).1
        = .error (.creatingTmuxWindow (.external (.NewWindow tmuxSession agentID env))) ∧
      (Spawn lib w tmuxSession agentID claudeMDPath env).2.calls
        = w.calls ++ [.RegisterAgent agentID tmuxSession agentID,
            .NewWindow tmuxSession agentID env, .DeleteAgent agentID] ∧
      ((DeleteAgent (NewWindow (RegisterAgent w agentID tmuxSession agentID).2 tmuxSession
            agentID env).2 agentID).1 = none →
        agentID ∉ (Spawn lib w tmuxSession agentID claudeMDPath env).2.agentIDs) := by
  obtain ⟨h0, hd⟩ := (RegisterAgent_eq_none w _ _ _).mp hreg
  rw [RegisterAgent_ok _ _ h0 hd] at hwin
  have h1 : w.failsAt 1 = true := by
    have := mt (NewWindow_eq_none _ _ _ _).mpr hwin
    simpa using this
  have hw1 : ((w.attempt (.RegisterAgent agentID tmuxSession agentID)).setAgents
      (w.agents ++ [⟨agentID, tmuxSession, agentID, none, "idle", w.now, none⟩])).failsAt 0
      = true := by simpa using h1
  unfold Spawn
  rw [RegisterAgent_ok _ _ h0 hd]
  simp only [NewWindow_fail _ _ _ hw1]
  refine ⟨trivial, ?_, ?_⟩
  · rw [DeleteAgent_calls]; simp
  · intro hdel
    rw [DeleteAgent_eq_none] at hdel
    rw [DeleteAgent_ok _ hdel]
    simp

/-- Counterexample for C4: registration succeeds, window creation fails and the
compensating deletion fails as well; the record of the agent stays in the store. -/
theorem Spawn_compensation_counterexample :
    (RegisterAgent (emptyWorld [1, 2]) "a1" "minuano" "a1").1 = none ∧
      (NewWindow (RegisterAgent (emptyWorld [1, 2]) "a1" "minuano" "a1").2 "minuano" "a1"
        sampleEnv).1 ≠ none ∧
      (Spawn sampleLib (emptyWorld [1, 2]) "minuano" "a1" "/repo/claude/CLAUDE.md" sampleEnv).1
        = .error (.creatingTmuxWindow (.external (.NewWindow "minuano" "a1" sampleEnv))) ∧
      "a1" ∈ (Spawn sampleLib (emptyWorld [1, 2]) "minuano" "a1" "/repo/claude/CLAUDE.md"
        sampleEnv).2.agentIDs := by
  decide

/-- Witness for C4 as amended: window creation fails, the deletion succeeds. -/
theorem Spawn_compensation_witness :
    "a1" ∉ (Spawn sampleLib (emptyWorld [1]) "minuano" "a1" "/repo/claude/CLAUDE.md"
      sampleEnv).2.agentIDs :=
  (Spawn_compensation sampleLib (emptyWorld [1]) "minuano" "a1" "/repo/claude/CLAUDE.md"
    sampleEnv (by decide) (by decide)).2.2 (by decide)

/-! ## Kill and KillAll -/

theorem Kill_calls (w : World) (tmuxSession agentID : String) :
    (Kill w tmuxSession agentID).2.calls
      = w.calls ++ [.KillWindow tmuxSession agentID, .DeleteAgent agentID] := by
  unfold Kill KillWindow DeleteAgent
  cases h0 : w.failsAt 0 <;> cases h1 : w.failsAt 1 <;> simp [h0, h1]

theorem Kill_result (w : World) (tmuxSession agentID : String) :
    (Kill w tmuxSession agentID).1
      = if w.failsAt 1 then some (.deletingAgentFromDB (.external (.DeleteAgent agentID)))
        else none := by
  unfold Kill KillWindow DeleteAgent
  cases h0 : w.failsAt 0 <;> cases h1 : w.failsAt 1 <;> simp [h0, h1]

theorem Kill_agents (w : World) (tmuxSession agentID : String) :
    (Kill w tmuxSession agentID).2.agents
      = if w.failsAt 1 then w.agents else w.agents.filter (fun a => a.ID != agentID) := by
  unfold Kill KillWindow DeleteAgent
  cases h0 : w.failsAt 0 <;> cases h1 : w.failsAt 1 <;> simp [h0, h1]

theorem Kill_failsAt (w : World) (tmuxSession agentID : String) (k : Nat) :
    (Kill w tmuxSession agentID).2.failsAt k = w.failsAt (k + 2) := by
  unfold Kill KillWindow DeleteAgent
  cases h0 : w.failsAt 0 <;> cases h1 : w.failsAt 1 <;> simp [h0, h1]

/-- C8 (Kill error policy): whether the window-destroy call fails or not, `Kill` makes
exactly two external calls, the destroy and then the store deletion; it returns an error
exactly when the store deletion fails, and that error wraps the deletion error.  The
outcome of the destroy call (`w.failsAt 0`) does not enter the result. -/
theorem Kill_error_policy (w : World) (tmuxSession agentID : String) :
    (Kill w tmuxSession agentID).2.calls
        = w.calls ++ [.KillWindow tmuxSession agentID, .DeleteAgent agentID] ∧
      ((Kill w tmuxSession agentID).1 ≠ none ↔
        (DeleteAgent (KillWindow w tmuxSession agentID).2 agentID).1 ≠ none) ∧
      (Kill w tmuxSession agentID).1
        = (DeleteAgent (KillWindow w tmuxSession agentID).2 agentID).1.map .deletingAgentFromDB ∧
      ((Kill w tmuxSession agentID).1 = none ↔ w.failsAt 1 = false) ∧
      ((KillWindow w tmuxSession agentID).1 ≠ none →
        (DeleteAgent (KillWindow w tmuxSession agentID).2 agentID).1 = none →
        (Kill w tmuxSession agentID).1 = none) := by
  refine ⟨Kill_calls w tmuxSession agentID, ?_, ?_, ?_, ?_⟩
  · unfold Kill
    cases h : (DeleteAgent (KillWindow w tmuxSession agentID).2 agentID) with
    | mk e w2 => cases e <;> simp
  · unfold Kill
    cases h : (DeleteAgent (KillWindow w tmuxSession agentID).2 agentID) with
    | mk e w2 => cases e <;> simp
  · rw [Kill_result]
    cases h1 : w.failsAt 1 <;> simp
  · intro _ hdel
    unfold Kill
    cases h : (DeleteAgent (KillWindow w tmuxSession agentID).2 agentID) with
    | mk e w2 =>
      rw [h] at hdel
      simp only at hdel
      subst hdel
      rfl

/-- Witness for C8: the window destroy fails, the deletion succeeds, `Kill` succeeds. -/
theorem Kill_error_policy_witness :
    (KillWindow (threeAgentWorld [0]) "minuano" "a2").1 ≠ none ∧
      (Kill (threeAgentWorld [0]) "minuano" "a2").1 = none :=
  ⟨by decide,
    (Kill_error_policy (threeAgentWorld [0]) "minuano" "a2").2.2.2.2 (by decide) (by decide)⟩

theorem killEach_calls (tmuxSession : String) : ∀ (l : List AgentRow) (w : World),
    (killEach tmuxSession l w).calls = w.calls ++ killCalls tmuxSession l
  | [], w => by simp [killEach, killCalls]
  | a :: rest, w => by
    have hc := Kill_calls w tmuxSession a.ID
    unfold killEach
    cases h : Kill w tmuxSession a.ID with
    | mk e w1 =>
      rw [h] at hc
      simp only at hc
      cases e <;> simp [killEach_calls tmuxSession rest, killCalls, hc]

/-- An id absent from the store stays absent through the loop. -/
theorem killEach_absent (tmuxSession id : String) : ∀ (l : List AgentRow) (w : World),
    id ∉ w.agentIDs → id ∉ (killEach tmuxSession l w).agentIDs
  | [], w, h => by simpa [killEach] using h
  | a :: rest, w, h => by
    have ha := Kill_agents w tmuxSession a.ID
    have hsub : id ∉ (Kill w tmuxSession a.ID).2.agentIDs := by
      simp only [World.agentIDs, ha]
      split_ifs
      · exact h
      · intro hmem
        apply h
        simp only [World.agentIDs, List.mem_map, List.mem_filter] at hmem ⊢
        obtain ⟨x, ⟨hx, -⟩, hxid⟩ := hmem
        exact ⟨x, hx, hxid⟩
    unfold killEach
    cases hk : Kill w tmuxSession a.ID with
    | mk e w1 =>
      rw [hk] at hsub
      cases e with
      | none => exact killEach_absent tmuxSession id rest w1 hsub
      | some err => exact killEach_absent tmuxSession id rest _ (by simpa using hsub)

/-- Every listed agent whose deletion does not fail is absent after the loop. -/
theorem killEach_removed (tmuxSession : String) : ∀ (l : List AgentRow) (w : World) (i : Nat)
    (hi : i < l.length), w.failsAt (2 * i + 1) = false →
    (l.get ⟨i, hi⟩).ID ∉ (killEach tmuxSession l w).agentIDs
  | a :: rest, w, 0, _, hf => by
    have ha := Kill_agents w tmuxSession a.ID
    simp only [Nat.mul_zero, Nat.zero_add] at hf
    simp only [hf, Bool.false_eq_true, if_false] at ha
    have hgone : a.ID ∉ (Kill w tmuxSession a.ID).2.agentIDs := by
      simp [World.agentIDs, ha]
    unfold killEach
    cases hk : Kill w tmuxSession a.ID with
    | mk e w1 =>
      rw [hk] at hgone
      cases e with
      | none => exact killEach_absent tmuxSession _ rest w1 hgone
      | some err => exact killEach_absent tmuxSession _ rest _ (by simpa using hgone)
  | a :: rest, w, i + 1, hi, hf => by
    have hfa := Kill_failsAt w tmuxSession a.ID (2 * i + 1)
    have hf' : (Kill w tmuxSession a.ID).2.failsAt (2 * i + 1) = false := by
      rw [hfa, ← hf]; congr 1
    unfold killEach
    cases hk : Kill w tmuxSession a.ID with
    | mk e w1 =>
      rw [hk] at hf'
      cases e with
      | none =>
        exact killEach_removed tmuxSession rest w1 i (Nat.lt_of_succ_lt_succ hi) hf'
      | some err =>
        exact killEach_removed tmuxSession rest _ i (Nat.lt_of_succ_lt_succ hi)
          (by simpa using hf')

/-- C7 (KillAll resilience): `KillAll` returns an error exactly when listing the agents
fails.  When listing succeeds with the list `agents`, `KillAll` returns no error whatever
fails afterwards, its external calls after the listing are the two calls of `Kill`
(window destroy, store deletion) for every listed agent in list order, and every listed
agent whose store deletion does not fail (the deletion of the `i`-th agent is external
call number `2 * i + 2` of the run) has no record in the store afterwards. -/
theorem KillAll_resilience (w : World) (tmuxSession : String) :
    ((KillAll w tmuxSession).1 ≠ none ↔ ∃ e, (ListAgents w).1 = .error e) ∧
      ∀ agents : List AgentRow, (ListAgents w).1 = .ok agents →
        (KillAll w tmuxSession).1 = none ∧
        (KillAll w tmuxSession).2.calls
          = w.calls ++ Call.ListAgents :: killCalls tmuxSession agents ∧
        ∀ (i : Nat) (hi : i < agents.length), w.failsAt (2 * i + 2) = false →
          (agents.get ⟨i, hi⟩).ID ∉ (KillAll w tmuxSession).2.agentIDs := by
  unfold KillAll ListAgents
  cases h0 : w.failsAt 0 with
  | true => simp
  | false =>
    simp only [Bool.false_eq_true, if_false]
    refine ⟨by simp, ?_⟩
    intro agents hl
    have hag : w.agents = agents := by simpa using hl
    subst hag
    refine ⟨trivial, ?_, ?_⟩
    · simp [killEach_calls]
    · intro i hi hf
      exact killEach_removed tmuxSession w.agents _ i hi (by simpa using hf)

/-- Witness for C7: three agents, the deletion of the second fails (external call 4);
the first and the third are removed, the second stays, and `KillAll` returns no error. -/
theorem KillAll_resilience_witness :
    (KillAll (threeAgentWorld [4]) "minuano").1 = none ∧
      (KillAll (threeAgentWorld [4]) "minuano").2.agentIDs = ["a2"] ∧
      "a1" ∉ (KillAll (threeAgentWorld [4]) "minuano").2.agentIDs ∧
      "a3" ∉ (KillAll (threeAgentWorld [4]) "minuano").2.agentIDs :=
  ⟨((KillAll_resilience (threeAgentWorld [4]) "minuano").2 threeAgents (by decide)).1,
    by decide,
    ((KillAll_resilience (threeAgentWorld [4]) "minuano").2 threeAgents (by decide)).2.2 0
      (by decide) (by decide),
    ((KillAll_resilience (threeAgentWorld [4]) "minuano").2 threeAgents (by decide)).2.2 2
      (by decide) (by decide)⟩

/-! ## The bootstrap phase of Spawn -/

@[simp]
theorem attempts_calls (w : World) (cs : List Call) :
    (w.attempts cs).calls = w.calls ++ cs := rfl
@[simp]
theorem attempts_agents (w : World) (cs : List Call) :
    (w.attempts cs).agents = w.agents := rfl
@[simp]
theorem attempts_windows (w : World) (cs : List Call) :
    (w.attempts cs).windows = w.windows := rfl
@[simp]
theorem attempts_now (w : World) (cs : List Call) : (w.attempts cs).now = w.now := rfl

theorem attempts_nil (w : World) : w.attempts [] = w := by
  cases w; simp [World.attempts]

theorem attempt_attempts (w : World) (c : Call) (cs : List Call) :
    (w.attempt c).attempts cs = w.attempts (c :: cs) := by
  cases w; simp [World.attempts, World.attempt]

theorem SendKeys_ok {w : World} (session window keys : String) (h : w.failsAt 0 = false) :
    SendKeys w session window keys = (none, w.attempt (.SendKeys session window keys)) := by
  unfold SendKeys
  simp only [h, Bool.false_eq_true, if_false]

theorem SendKeys_fail {w : World} (session window keys : String) (h : w.failsAt 0 = true) :
    SendKeys w session window keys =
      (some (.external (.SendKeys session window keys)),
        w.attempt (.SendKeys session window keys)) := by
  unfold SendKeys
  simp only [h, if_true]

/-- When no send fails, every command is sent, in order. -/
theorem sendBootstrap_ok (tmuxSession agentID : String) : ∀ (cmds : List String) (w : World),
    (∀ j, j < cmds.length → w.failsAt j = false) →
    sendBootstrap tmuxSession agentID cmds w
      = (none, w.attempts (cmds.map (Call.SendKeys tmuxSession agentID)))
  | [], w, _ => by simp [sendBootstrap, attempts_nil]
  | cmd :: rest, w, h => by
    unfold sendBootstrap
    rw [SendKeys_ok _ _ _ (h 0 (by simp))]
    simp only
    rw [sendBootstrap_ok tmuxSession agentID rest _
      (fun j hj => by simpa using h (j + 1) (by simpa using hj))]
    simp [attempt_attempts]

/-- When the send number `i` is the first to fail, the commands up to it are sent and
none after it. -/
theorem sendBootstrap_fail (tmuxSession agentID : String) :
    ∀ (cmds : List String) (w : World) (i : Nat) (hi : i < cmds.length),
    (∀ j, j < i → w.failsAt j = false) → w.failsAt i = true →
    sendBootstrap tmuxSession agentID cmds w
      = (some (.sendingBootstrapCommand
            (.external (.SendKeys tmuxSession agentID (cmds.get ⟨i, hi⟩)))),
          w.attempts ((cmds.take (i + 1)).map (Call.SendKeys tmuxSession agentID)))
  | cmd :: rest, w, 0, _, _, hf => by
    unfold sendBootstrap
    rw [SendKeys_fail _ _ _ hf]
    simp [World.attempts, World.attempt]
  | cmd :: rest, w, i + 1, hi, hok, hf => by
    unfold sendBootstrap
    rw [SendKeys_ok _ _ _ (hok 0 (by omega))]
    simp only
    rw [sendBootstrap_fail tmuxSession agentID rest _ i (Nat.lt_of_succ_lt_succ hi)
      (fun j hj => by simpa using hok (j + 1) (by omega)) (by simpa using hf)]
    simp [attempt_attempts]

/-- The state in which `Spawn` starts sending, after registration and window creation
succeeded. -/
theorem Spawn_registered (lib : GoLib) (w : World) (tmuxSession agentID claudeMDPath : String)
    (env : List (String × String))
    (hreg : (RegisterAgent w agentID tmuxSession agentID).1 = none)
    (hwin : (NewWindow (RegisterAgent w agentID tmuxSession agentID).2 tmuxSession agentID env).1
      = none) :
    Spawn lib w tmuxSession agentID claudeMDPath env =
      match sendBootstrap tmuxSession agentID (bootstrap lib agentID claudeMDPath env)
        ((((w.attempt (.RegisterAgent agentID tmuxSession agentID)).setAgents
          (w.agents ++ [⟨agentID, tmuxSession, agentID, none, "idle", w.now, none⟩])).attempt
            (.NewWindow tmuxSession agentID env)).setWindows
              (w.windows ++ [(tmuxSession, agentID)])) with
      | (some err, w3) => (.error err, w3)
      | (none, w3) =>
        (.ok ⟨agentID, tmuxSession, agentID, none, "idle", w3.now, some w3.now⟩, w3) := by
  obtain ⟨h0, hd⟩ := (RegisterAgent_eq_none w _ _ _).mp hreg
  rw [RegisterAgent_ok _ _ h0 hd] at hwin
  rw [NewWindow_eq_none] at hwin
  unfold Spawn
  rw [RegisterAgent_ok _ _ h0 hd]
  simp only [NewWindow_ok _ _ _ hwin]
  rfl

theorem failsAt_sending (w : World) (c1 c2 : Call) (as : List AgentRow)
    (ws : List (String × String)) (j : Nat) :
    ((((w.attempt c1).setAgents as).attempt c2).setWindows ws).failsAt j = w.failsAt (2 + j) := by
  simp only [setWindows_failsAt, attempt_failsAt, setAgents_failsAt]
  congr 1
  omega

/-- C9 (bootstrap failure is not compensated): when registration and window creation
succeed and, among the four bootstrap instructions (external calls 2 to 5 of the run),
the one of index `i` (counted from 0) is the first whose send fails, `Spawn` returns the
send error (and no descriptor), its external calls are the registration, the window
creation and the sends of the instructions up to index `i` only (no later send, no
`DeleteAgent`, no `KillWindow`), the agent record is still in the store and the created
window still exists. -/
theorem Spawn_bootstrap_failure (lib : GoLib) (w : World)
    (tmuxSession agentID claudeMDPath : String) (env : List (String × String)) (i : Nat)
    (hi : i < 4)
    (hreg : (RegisterAgent w agentID tmuxSession agentID).1 = none)
    (hwin : (NewWindow (RegisterAgent w agentID tmuxSession agentID).2 tmuxSession agentID env).1
      = none)
    (hsent : ∀ j, j < i → w.failsAt (2 + j) = false)
    (hfail : w.failsAt (2 + i) = true) :
    (Spawn lib w tmuxSession agentID claudeMDPath env).1
        = .error (.sendingBootstrapCommand (.external (.SendKeys tmuxSession agentID
            ((bootstrap lib agentID claudeMDPath env).get ⟨i, hi⟩)))) ∧
      (Spawn lib w tmuxSession agentID claudeMDPath env).2.calls
        = w.calls ++ [.RegisterAgent agentID tmuxSession agentID,
            .NewWindow tmuxSession agentID env]
          ++ ((bootstrap lib agentID claudeMDPath env).take (i + 1)).map
              (Call.SendKeys tmuxSession agentID) ∧
      (Spawn lib w tmuxSession agentID claudeMDPath env).2.agents
        = w.agents ++ [⟨agentID, tmuxSession, agentID, none, "idle", w.now, none⟩] ∧
      agentID ∈ (Spawn lib w tmuxSession agentID claudeMDPath env).2.agentIDs ∧
      (tmuxSession, agentID) ∈ (Spawn lib w tmuxSession agentID claudeMDPath env).2.windows := by
  rw [Spawn_registered lib w tmuxSession agentID claudeMDPath env hreg hwin]
  rw [sendBootstrap_fail tmuxSession agentID (bootstrap lib agentID claudeMDPath env) _ i hi
    (fun j hj => by rw [failsAt_sending]; exact hsent j hj)
    (by rw [failsAt_sending]; exact hfail)]
  simp [World.agentIDs]

/-- Witness for C9: the third bootstrap instruction (external call 4) fails to send. -/
theorem Spawn_bootstrap_failure_witness :
    (Spawn sampleLib (emptyWorld [4]) "minuano" "a1" "/repo/claude/CLAUDE.md" sampleEnv).2.calls
        = [.RegisterAgent "a1" "minuano" "a1", .NewWindow "minuano" "a1" sampleEnv,
            .SendKeys "minuano" "a1" "export AGENT_ID=\"a1\"",
            .SendKeys "minuano" "a1" "export DATABASE_URL=\"postgres://minuano\"",
            .SendKeys "minuano" "a1" "export PATH=\"$PATH:/repo/scripts\""] ∧
      "a1" ∈ (Spawn sampleLib (emptyWorld [4]) "minuano" "a1" "/repo/claude/CLAUDE.md"
        sampleEnv).2.agentIDs :=
  ⟨by decide,
    (Spawn_bootstrap_failure sampleLib (emptyWorld [4]) "minuano" "a1" "/repo/claude/CLAUDE.md"
      sampleEnv 2 (by decide) (by decide) (by decide) (by decide) (by decide)).2.2.2.1⟩

/-- C10 (Spawn success path): when registration, window creation and the four sends
(external calls 2 to 5 of the run) succeed, the external calls of `Spawn` are the
registration, the window creation and then the sends, to the window named `agentID` of
the given session, of the export of `AGENT_ID`, the export of `DATABASE_URL` read from
`env`, the extension of `PATH` by the absolute scripts directory and the launch command
reading the bootstrap file, in this order; and `Spawn` returns the descriptor with
`ID = agentID`, the given session, `TmuxWindow = agentID`, no `TaskID`, status `idle` and
`StartedAt` and `LastSeen` both the current time. -/
theorem Spawn_success (lib : GoLib) (w : World) (tmuxSession agentID claudeMDPath : String)
    (env : List (String × String))
    (hreg : (RegisterAgent w agentID tmuxSession agentID).1 = none)
    (hwin : (NewWindow (RegisterAgent w agentID tmuxSession agentID).2 tmuxSession agentID env).1
      = none)
    (hsend : ∀ j, j < 4 → w.failsAt (2 + j) = false) :
    (Spawn lib w tmuxSession agentID claudeMDPath env).1
        = .ok { ID := agentID, TmuxSession := tmuxSession, TmuxWindow := agentID,
                TaskID := none, Status := "idle", StartedAt := w.now, LastSeen := some w.now } ∧
      (Spawn lib w tmuxSession agentID claudeMDPath env).2.calls
        = w.calls ++ [.RegisterAgent agentID tmuxSession agentID,
            .NewWindow tmuxSession agentID env,
            .SendKeys tmuxSession agentID ("export AGENT_ID=" ++ lib.Quote agentID),
            .SendKeys tmuxSession agentID
              ("export DATABASE_URL=" ++ lib.Quote ((env.lookup "DATABASE_URL").getD "")),
            .SendKeys tmuxSession agentID
              ("export PATH=\"$PATH:" ++ lib.Abs (lib.Join [lib.Dir claudeMDPath, "..", "scripts"])
                ++ "\""),
            .SendKeys tmuxSession agentID
              ("claude --dangerously-skip-permissions -p \"$(cat " ++ claudeMDPath ++ ")\"")] := by
  rw [Spawn_registered lib w tmuxSession agentID claudeMDPath env hreg hwin]
  rw [sendBootstrap_ok tmuxSession agentID (bootstrap lib agentID claudeMDPath env) _
    (fun j hj => by rw [failsAt_sending]; exact hsend j hj)]
  simp [bootstrap]

/-- Witness for C10: nothing fails in an empty world. -/
theorem Spawn_success_witness :
    (Spawn sampleLib (emptyWorld []) "minuano" "a1" "/repo/claude/CLAUDE.md" sampleEnv).1
      = .ok { ID := "a1", TmuxSession := "minuano", TmuxWindow := "a1", TaskID := none,
              Status := "idle", StartedAt := 1000, LastSeen := some 1000 } :=
  (Spawn_success sampleLib (emptyWorld []) "minuano" "a1" "/repo/claude/CLAUDE.md" sampleEnv
    (by decide) (by decide) (by decide)).1

/-! ## attach -/

theorem connectDB_eq_none (w : World) : (connectDB w).1 = none ↔ w.failsAt 0 = false := by
  unfold connectDB
  cases h0 : w.failsAt 0 <;> simp [h0]

theorem connectDB_world (w : World) : (connectDB w).2 = w.attempt .connectDB := by
  unfold connectDB
  cases h0 : w.failsAt 0 <;> simp [h0]

theorem GetAgent_world (w : World) (id : String) : (GetAgent w id).2 = w.attempt (.GetAgent id) := by
  unfold GetAgent
  cases h0 : w.failsAt 0 <;> simp [h0]

theorem GetAgent_ok_iff (w : World) (id : String) (r : Option AgentRow) :
    (GetAgent w id).1 = .ok r ↔
      w.failsAt 0 = false ∧ r = w.agents.find? (fun a => a.ID == id) := by
  unfold GetAgent
  cases h0 : w.failsAt 0 <;> simp [h0, eq_comm]

theorem find_agent_of_mem {l : List AgentRow} {id : String} (h : id ∈ l.map (·.ID)) :
    ∃ a, l.find? (fun a => a.ID == id) = some a ∧ a ∈ l ∧ a.ID = id := by
  cases hf : l.find? (fun a => a.ID == id) with
  | none =>
    rw [List.find?_eq_none] at hf
    obtain ⟨a, ha, haid⟩ := List.mem_map.mp h
    exact absurd (by simpa using haid) (hf a ha)
  | some a =>
    exact ⟨a, rfl, List.mem_of_find?_eq_some hf, by simpa using List.find?_some hf⟩

/-- The resolver fails when the number of task ids with the given prefix is not one. -/
theorem ResolvePartialID_error (w : World) (partialID : String)
    (h : ((w.tasks.map (·.ID)).filter (fun t => HasPrefix t partialID)).length ≠ 1) :
    ∃ e, ResolvePartialID w partialID = (.error e, w.attempt (.ResolvePartialID partialID)) := by
  unfold ResolvePartialID
  cases h0 : w.failsAt 0 with
  | true => exact ⟨.external (.ResolvePartialID partialID), by simp⟩
  | false =>
    simp only [Bool.false_eq_true, if_false]
    generalize ((w.tasks.map (·.ID)).filter (fun t => HasPrefix t partialID)) = ts at h
    match ts, h with
    | [], _ => exact ⟨_, rfl⟩
    | [t], h => exact absurd rfl h
    | t :: u :: rest, _ => exact ⟨_, rfl⟩

/-- C5, as amended (ambiguity and not-found in attach): for every token that matches no
agent id, when the number of task ids that have the token as prefix is not one (more
than one, or zero), `attachCmd.RunE` fails with the same error "no agent or task found
matching" the token, whichever of the two it is; its external calls are the connection,
the agent lookup and the prefix resolution only, so no task is picked and no window is
attached. -/
theorem attach_resolution_failure (w : World) (session id : String) (rest : List String)
    (hconn : (connectDB w).1 = none)
    (hagent : (GetAgent (connectDB w).2 id).1 = .ok none)
    (hcount : ((w.tasks.map (·.ID)).filter (fun t => HasPrefix t id)).length ≠ 1) :
    (attachRunE w session (id :: rest)).1 = some (.noAgentOrTaskFound id) ∧
      (attachRunE w session (id :: rest)).2.calls
        = w.calls ++ [.connectDB, .GetAgent id, .ResolvePartialID id] := by
  have hc0 := (connectDB_eq_none w).mp hconn
  have hcw := connectDB_world w
  have hconn' : connectDB w = (none, w.attempt .connectDB) := Prod.ext hconn hcw
  rw [hcw] at hagent
  have hgw := GetAgent_world (w.attempt .connectDB) id
  have hget : GetAgent (w.attempt .connectDB) id
      = (.ok none, (w.attempt .connectDB).attempt (.GetAgent id)) := Prod.ext hagent hgw
  obtain ⟨e, he⟩ := ResolvePartialID_error ((w.attempt .connectDB).attempt (.GetAgent id)) id
    (by simpa using hcount)
  unfold attachRunE
  simp only [hconn', hget, he]
  simp

/-- Counterexample for C5: with the task ids `abc123` and `abc456` the resolver reports
the token `abc` ambiguous, and with no task it reports it not found, yet the attach
command returns one and the same error in both stores; for the token `zzz` it returns
that error as well. -/
theorem attach_ambiguity_counterexample :
    (ResolvePartialID twoTaskWorld "abc").1
        = .error (.ambiguousID "abc" ["abc123", "abc456"]) ∧
      (ResolvePartialID (emptyWorld []) "abc").1 = .error (.taskNotFound "abc") ∧
      (attachRunE twoTaskWorld "minuano" ["abc"]).1 = some (.noAgentOrTaskFound "abc") ∧
      (attachRunE (emptyWorld []) "minuano" ["abc"]).1 = some (.noAgentOrTaskFound "abc") ∧
      (attachRunE twoTaskWorld "minuano" ["zzz"]).1 = some (.noAgentOrTaskFound "zzz") := by
  decide

/-- Witness for C5 as amended: the ambiguous token `abc`. -/
theorem attach_resolution_failure_witness :
    (attachRunE twoTaskWorld "minuano" ["abc"]).2.calls
      = [.connectDB, .GetAgent "abc", .ResolvePartialID "abc"] :=
  (attach_resolution_failure twoTaskWorld "minuano" "abc" [] (by decide) (by decide)
    (by decide)).2

theorem AttachOrSwitch_calls (w : World) (session window : String) :
    (AttachOrSwitch w session window).2.calls = w.calls ++ [.AttachOrSwitch session window] := by
  unfold AttachOrSwitch
  cases h0 : w.failsAt 0 <;> simp [h0]

/-- C6 (resolver precedence): when an agent whose id is exactly the token exists,
`attachCmd.RunE` never calls the task-prefix resolution, whatever the task ids are and
whatever fails (so the prefix resolution is attempted only when no agent has that id);
and when the connection and the agent lookup succeed, its external calls are the
connection, the lookup and the attach to the window of an agent of the store with that
id, whose outcome it returns. -/
theorem attach_precedence (w : World) (session id : String) (rest : List String)
    (hex : id ∈ w.agentIDs) :
    (∀ t, Call.ResolvePartialID t ∉ (attachRunE w session (id :: rest)).2.calls.drop
        w.calls.length) ∧
      ((connectDB w).1 = none → (∃ r, (GetAgent (connectDB w).2 id).1 = .ok r) →
        ∃ a, a ∈ w.agents ∧ a.ID = id ∧
          (GetAgent (connectDB w).2 id).1 = .ok (some a) ∧
          (attachRunE w session (id :: rest)).2.calls
            = w.calls ++ [.connectDB, .GetAgent id, .AttachOrSwitch session a.TmuxWindow] ∧
          (attachRunE w session (id :: rest)).1
            = (AttachOrSwitch (GetAgent (connectDB w).2 id).2 session a.TmuxWindow).1) := by
  obtain ⟨a, hfind, hmem, haid⟩ := find_agent_of_mem hex
  have hfind' : (w.attempt .connectDB).agents.find? (fun a => a.ID == id) = some a := hfind
  constructor
  · intro t
    unfold attachRunE connectDB
    cases h0 : w.failsAt 0 with
    | true => simp
    | false =>
      simp only [Bool.false_eq_true, if_false]
      unfold GetAgent
      cases h1 : w.failsAt 1 with
      | true => simp [h1]
      | false =>
        simp only [attempt_failsAt, h1, Bool.false_eq_true, if_false, hfind']
        rw [AttachOrSwitch_calls]
        simp
  · intro hconn hget
    have hc0 := (connectDB_eq_none w).mp hconn
    have hconn' : connectDB w = (none, w.attempt .connectDB) :=
      Prod.ext hconn (connectDB_world w)
    obtain ⟨r, hr⟩ := hget
    rw [connectDB_world] at hr ⊢
    obtain ⟨h1, hreq⟩ := (GetAgent_ok_iff _ _ _).mp hr
    rw [hfind'] at hreq
    subst hreq
    have hget' : GetAgent (w.attempt .connectDB) id
        = (.ok (some a), (w.attempt .connectDB).attempt (.GetAgent id)) :=
      Prod.ext hr (GetAgent_world _ _)
    refine ⟨a, hmem, haid, hr, ?_, ?_⟩
    · unfold attachRunE
      simp only [hconn', hget']
      rw [AttachOrSwitch_calls]
      simp
    · unfold attachRunE
      simp only [hconn', hget']

/-- Witness for C6: the token `abc` is the id of an agent and a prefix of two task ids;
the command attaches to the window of the agent `abc`. -/
theorem attach_precedence_witness :
    ∃ a, a ∈ precedenceWorld.agents ∧ a.ID = "abc" ∧
      (GetAgent (connectDB precedenceWorld).2 "abc").1 = .ok (some a) ∧
      (attachRunE precedenceWorld "minuano" ["abc"]).2.calls
        = precedenceWorld.calls
          ++ [.connectDB, .GetAgent "abc", .AttachOrSwitch "minuano" a.TmuxWindow] ∧
      (attachRunE precedenceWorld "minuano" ["abc"]).1
        = (AttachOrSwitch (GetAgent (connectDB precedenceWorld).2 "abc").2 "minuano"
            a.TmuxWindow).1 :=
  (attach_precedence precedenceWorld "minuano" "abc" [] (by decide)).2 (by decide)
    ⟨some ⟨"abc", "minuano", "abc-win", none, "idle", 7, none⟩, by decide⟩

/-! ## Split -/

theorem Split_ne_nil (sep : UInt8) : ∀ s : Bytes, Split s sep ≠ []
  | [] => by simp [Split]
  | b :: rest => by
    unfold Split
    split_ifs
    · simp
    · cases Split rest sep <;> simp

theorem intercalate_cons_cons (sep b : UInt8) (piece : Bytes) (pieces : List Bytes) :
    [sep].intercalate ((b :: piece) :: pieces) = b :: [sep].intercalate (piece :: pieces) := by
  cases pieces <;> simp [List.intercalate, List.intersperse]

theorem intercalate_nil_cons (sep : UInt8) (piece : Bytes) (pieces : List Bytes) :
    [sep].intercalate ([] :: piece :: pieces) = sep :: [sep].intercalate (piece :: pieces) := by
  simp [List.intercalate, List.intersperse]

/-- Joining the pieces with the separator gives the string back. -/
theorem intercalate_Split (sep : UInt8) : ∀ s : Bytes, [sep].intercalate (Split s sep) = s
  | [] => by simp [Split, List.intercalate]
  | b :: rest => by
    have ih := intercalate_Split sep rest
    have hne := Split_ne_nil sep rest
    unfold Split
    cases hs : Split rest sep with
    | nil => exact absurd hs hne
    | cons piece pieces =>
      rw [hs] at ih
      split_ifs with hb
      · rw [intercalate_nil_cons, ih, hb]
      · simp only
        rw [intercalate_cons_cons, ih]

/-- No piece contains the separator. -/
theorem not_mem_of_mem_Split (sep : UInt8) : ∀ (s : Bytes) (piece : Bytes),
    piece ∈ Split s sep → sep ∉ piece
  | [], piece, h => by
    simp only [Split, List.mem_singleton] at h
    simp [h]
  | b :: rest, piece, h => by
    have ih := not_mem_of_mem_Split sep rest
    unfold Split at h
    cases hs : Split rest sep with
    | nil =>
      rw [hs] at h
      split_ifs at h with hb
      · simp only [List.mem_singleton] at h
        simp [h]
      · simp only [List.mem_singleton] at h
        subst h
        simpa using fun hh => hb hh.symm
    | cons p ps =>
      rw [hs] at h ih
      split_ifs at h with hb
      · rcases List.mem_cons.mp h with h | h
        · simp [h]
        · exact ih piece h
      · simp only at h
        rcases List.mem_cons.mp h with h | h
        · subst h
          have hp := ih p (List.mem_cons_self _ _)
          simp only [List.mem_cons, not_or]
          exact ⟨fun hh => hb hh.symm, hp⟩
        · exact ih piece (List.mem_cons_of_mem _ h)

theorem Split_cons_of_not_mem (sep b : UInt8) (hb : b ≠ sep) (s : Bytes) (piece : Bytes)
    (pieces : List Bytes) (h : Split s sep = piece :: pieces) :
    Split (b :: s) sep = (b :: piece) :: pieces := by
  rw [Split, if_neg hb, h]

/-- The pieces are determined by the two properties above. -/
theorem Split_intercalate (sep : UInt8) : ∀ (piece : Bytes) (pieces : List Bytes),
    (∀ p ∈ piece :: pieces, sep ∉ p) →
    Split ([sep].intercalate (piece :: pieces)) sep = piece :: pieces
  | [], [], _ => by simp [List.intercalate, Split]
  | [], q :: qs, h => by
    rw [intercalate_nil_cons, Split, if_pos rfl,
      Split_intercalate sep q qs (fun p hp => h p (List.mem_cons_of_mem _ hp))]
  | b :: piece, pieces, h => by
    have hb : b ≠ sep := by
      have := h (b :: piece) (List.mem_cons_self _ _)
      simp only [List.mem_cons, not_or] at this
      exact fun hh => this.1 hh.symm
    rw [intercalate_cons_cons]
    apply Split_cons_of_not_mem sep b hb
    apply Split_intercalate sep piece pieces
    intro p hp
    rcases List.mem_cons.mp hp with hp | hp
    · subst hp
      have := h (b :: p) (List.mem_cons_self _ _)
      simp only [List.mem_cons, not_or] at this
      exact this.2
    · exact h p (List.mem_cons_of_mem _ hp)
termination_by piece pieces => piece.length + (pieces.map (·.length + 1)).sum

/-! ## The search snippet -/

theorem bytes_marker : bytes "..." = [46, 46, 46] := by decide

theorem bytes_indent : bytes "  " = [32, 32] := by decide

theorem bytes_newline : bytes "\n" = [newline] := by decide

theorem snippet_short (content : Bytes) (h : content.length ≤ 200) :
    snippet content = content := by
  unfold snippet
  rw [if_neg (by omega)]

theorem snippet_long (content : Bytes) (h : 200 < content.length) :
    snippet content = content.take 200 ++ bytes "..." := by
  unfold snippet
  rw [if_pos h]

theorem snippet_length_le (content : Bytes) : (snippet content).length ≤ 203 := by
  by_cases h : 200 < content.length
  · rw [snippet_long content h, bytes_marker]
    simp only [List.length_append, List.length_take, List.length_cons, List.length_nil]
    omega
  · rw [snippet_short content (by omega)]
    omega

/-- C11 (search snippet truncation), with lengths counted in bytes as Go's `len` and
slicing do: the snippet is the content unchanged when the content has at most 200 bytes,
and otherwise its first 200 bytes followed by the marker `...`; the snippet never has
more than 203 bytes; and what is printed is, for the pieces of the snippet between its
newlines (the one non-empty list of newline-free pieces that joined by newlines give
the snippet), each piece after two spaces and before a newline, in order. -/
theorem snippet_truncation (content : Bytes) :
    (content.length ≤ 200 → snippet content = content) ∧
      (200 < content.length → snippet content = content.take 200 ++ [46, 46, 46]) ∧
      (snippet content).length ≤ 203 ∧
      (∃ lines : List Bytes, lines ≠ [] ∧ (∀ l ∈ lines, newline ∉ l) ∧
        [newline].intercalate lines = snippet content ∧
        printSnippet content = lines.map (fun line => [32, 32] ++ line ++ [newline])) ∧
      (∀ lines : List Bytes, lines ≠ [] → (∀ l ∈ lines, newline ∉ l) →
        [newline].intercalate lines = snippet content →
        printSnippet content = lines.map (fun line => [32, 32] ++ line ++ [newline])) := by
  have hprint : printSnippet content
      = (Split (snippet content) newline).map (fun line => [32, 32] ++ line ++ [newline]) := by
    unfold printSnippet
    rw [bytes_indent, bytes_newline]
  refine ⟨snippet_short content, ?_, snippet_length_le content, ?_, ?_⟩
  · intro h
    rw [snippet_long content h, bytes_marker]
  · exact ⟨Split (snippet content) newline, Split_ne_nil _ _,
      not_mem_of_mem_Split newline (snippet content), intercalate_Split _ _, hprint⟩
  · intro lines hne hfree hjoin
    rw [hprint, ← hjoin]
    cases lines with
    | nil => exact absurd rfl hne
    | cons l ls => rw [Split_intercalate newline l ls hfree]

set_option maxRecDepth 100000 in
/-- Witness for C11: a content of 250 bytes with a newline at position 120 is cut to 203
bytes and printed as two lines. -/
theorem snippet_truncation_witness :
    snippet longContent = longContent.take 200 ++ [46, 46, 46] ∧
      (snippet longContent).length ≤ 203 ∧
      printSnippet longContent
        = [[32, 32] ++ List.replicate 120 97 ++ [newline],
           [32, 32] ++ (List.replicate 79 98 ++ [46, 46, 46]) ++ [newline]] :=
  ⟨(snippet_truncation longContent).2.1 (by decide),
    (snippet_truncation longContent).2.2.1,
    (snippet_truncation longContent).2.2.2.2
      [List.replicate 120 97, List.replicate 79 98 ++ [46, 46, 46]]
      (by simp) (by decide) (by decide)⟩

/-! ## truncate -/

theorem truncate_short (s : Bytes) (n : Int) (h : (s.length : Int) ≤ n) :
    truncate s n = some s := by
  unfold truncate
  rw [if_neg (by omega)]

theorem truncate_long (s : Bytes) (n : Int) (hn : 0 ≤ n) (h : n < (s.length : Int)) :
    truncate s n = some (s.take n.toNat) := by
  unfold truncate
  rw [if_pos h, if_neg (by omega)]

/-- C12 (dashboard truncate), for `n ≥ 0`: `truncate s n` returns (without panic) `s`
itself when `len(s) ≤ n` and otherwise the first `n` bytes of `s`; so the result is a
prefix of `s` of length `min(len(s), n)`, and truncating the result again with the same
`n` leaves it unchanged. -/
theorem truncate_spec (s : Bytes) (n : Int) (hn : 0 ≤ n) :
    ((s.length : Int) ≤ n → truncate s n = some s) ∧
      (n < (s.length : Int) → truncate s n = some (s.take n.toNat)) ∧
      ∃ r : Bytes, truncate s n = some r ∧ r <+: s ∧
        (r.length : Int) = min (s.length : Int) n ∧ truncate r n = some r := by
  refine ⟨truncate_short s n, truncate_long s n hn, ?_⟩
  by_cases h : n < (s.length : Int)
  · have hlen : ((s.take n.toNat).length : Int) = n := by
      rw [List.length_take]
      omega
    refine ⟨s.take n.toNat, truncate_long s n hn h, List.take_prefix _ _, ?_, ?_⟩
    · rw [hlen]; omega
    · exact truncate_short _ n (by omega)
  · have hs : (s.length : Int) ≤ n := by omega
    exact ⟨s, truncate_short s n hs, List.prefix_refl s, by omega, truncate_short s n hs⟩

/-- Witness for C12: the cases of `TestTruncate`. -/
theorem truncate_spec_witness :
    truncate (bytes "short") 10 = some (bytes "short") ∧
      truncate (bytes "exactly-10") 10 = some (bytes "exactly-10") ∧
      truncate (bytes "this-is-too-long") 10 = some ((bytes "this-is-too-long").take 10) ∧
      (bytes "this-is-too-long").take 10 = bytes "this-is-to" ∧
      truncate (bytes "") 5 = some (bytes "") :=
  ⟨(truncate_spec (bytes "short") 10 (by decide)).1 (by decide),
    (truncate_spec (bytes "exactly-10") 10 (by decide)).1 (by decide),
    (truncate_spec (bytes "this-is-too-long") 10 (by decide)).2.1 (by decide),
    by decide,
    (truncate_spec (bytes "") 5 (by decide)).1 (by decide)⟩


end Minuano
